import Mathlib

/-!
# Verification of the sudoku-solver engine

Shallow embedding of `src/services/sudokuSolver.ts`: board geometry,
legality checking (`isValidMove`), conflict scanning (`validateBoard`),
the deterministic backtracking solver (`solveSudoku`), the randomized
solver (`solveSudokuRandom`, with the ambient `Math.random` source
modelled as an explicit stream of natural-number draws), and the puzzle
generator (`generateSudoku`, with the unbounded removal loop modelled
with explicit fuel).

JavaScript `number[][]` boards are modelled as `List (List Nat)`; cell
reads go through `List.getD` with default `0` (the code only reads
in-range indices on well-formed boards, which the theorems hypothesise).
For the claims about mutation and aliasing (the solver works on a deep
copy and never mutates its argument) a small heap model is given at the
end: rows live at addresses in a store, a grid is a list of row
addresses, and writes are explicit store updates.
-/

namespace Sudoku

/-- A board: a list of rows, each row a list of cell values (0 = empty). -/
abbrev Grid := List (List Nat)

/-- The difficulty levels of the generator. -/
inductive Difficulty where
  | Easy : Difficulty
  | Medium : Difficulty
  | Hard : Difficulty
deriving DecidableEq, Repr

/-- Read a cell; out-of-range reads default to 0 (never hit on well-formed boards). -/
def cell (b : Grid) (r c : Nat) : Nat := (b.getD r []).getD c 0

/-- Write a cell (the JS `board[r][c] = v` on an in-range index). -/
def setCell (b : Grid) (r c v : Nat) : Grid := b.set r ((b.getD r []).set c v)

/-- `createEmptyGrid` from the source: a size×size board of zeros. -/
def createEmptyGrid (size : Nat) : Grid :=
  List.replicate size (List.replicate size 0)

/-- `getBoxDims` from the source: region (width, height); sizes other than
6 and 9 fall back to 3×3. -/
def getBoxDims (size : Nat) : Nat × Nat :=
  if size = 9 then (3, 3) else if size = 6 then (3, 2) else (3, 3)

/-- `isValidMove` from the source: placing `num` at `(row, col)` conflicts
with no *other* cell in the same row, column, or box. -/
def isValidMove (board : Grid) (row col num : Nat) (size : Nat) : Bool :=
  let boxWidth := (getBoxDims size).1
  let boxHeight := (getBoxDims size).2
  let startRow := row / boxHeight * boxHeight
  let startCol := col / boxWidth * boxWidth
  -- 1. Check Row
  ((List.range size).all fun j => !(cell board row j == num && col != j)) &&
  -- 2. Check Column
  ((List.range size).all fun i => !(cell board i col == num && row != i)) &&
  -- 3. Check Box
  ((List.range boxHeight).all fun i => (List.range boxWidth).all fun j =>
    !(cell board (startRow + i) (startCol + j) == num &&
      (startRow + i != row || startCol + j != col)))

/-- All positions of a size×size board in row-major order. -/
def allPos (size : Nat) : List (Nat × Nat) :=
  (List.range size).flatMap fun i => (List.range size).map fun j => (i, j)

/-- The per-cell conflict test of `validateBoard`: the cell is non-empty and
some other cell in its row, column, or box holds the same value. -/
def conflictAt (board : Grid) (size r c : Nat) : Bool :=
  let num := cell board r c
  if num == 0 then false else
  let boxWidth := (getBoxDims size).1
  let boxHeight := (getBoxDims size).2
  let startRow := r / boxHeight * boxHeight
  let startCol := c / boxWidth * boxWidth
  ((List.range size).any fun j => j != c && cell board r j == num) ||
  ((List.range size).any fun i => i != r && cell board i c == num) ||
  ((List.range boxHeight).any fun i => (List.range boxWidth).any fun j =>
    (startRow + i != r || startCol + j != c) &&
    cell board (startRow + i) (startCol + j) == num)

/-- `validateBoard` from the source: every cell that currently conflicts
with some peer, in row-major order. -/
def validateBoard (board : Grid) (size : Nat) : List (Nat × Nat) :=
  (allPos size).filter fun p => conflictAt board size p.1 p.2

/-- `findEmpty` from the source solver: the first empty cell in row-major
order, if any. -/
def findEmpty (b : Grid) (size : Nat) : Option (Nat × Nat) :=
  (allPos size).find? fun p => cell b p.1 p.2 == 0

/-- The candidate loop of the solver: try each `num` of `cands` in order;
place the first valid one and recurse (via `f`); a `none` from `f` models
the backtracking reset of the cell. -/
def tryCands (f : Grid → Option Grid) (b : Grid) (r c : Nat) (size : Nat) :
    List Nat → Option Grid
  | [] => none
  | n :: ns =>
    if isValidMove b r c n size then
      match f (setCell b r c n) with
      | some sol => some sol
      | none => tryCands f b r c size ns
    else tryCands f b r c size ns

/-- The recursive `solve` of `solveSudoku`, fuelled: each recursive call
fills one empty cell, so fuel `size*size + 1` can never run out on a
well-formed board. Candidates are tried in ascending order 1..size. -/
def solveAux (size : Nat) : Nat → Grid → Option Grid
  | 0, _ => none
  | fuel + 1, b =>
    match findEmpty b size with
    | none => some b
    | some (r, c) =>
      tryCands (solveAux size fuel) b r c size ((List.range size).map (· + 1))

/-- `solveSudoku` from the source: backtracking on a private copy of the
input (the copy is implicit here; the heap model below makes it explicit). -/
def solveSudoku (inputBoard : Grid) (size : Nat) : Option Grid :=
  solveAux size (size * size + 1) inputBoard

/-! ## Specification-level predicates -/

/-- The board is a well-formed size×size list of lists. -/
def Wf (b : Grid) (size : Nat) : Prop :=
  b.length = size ∧ ∀ row ∈ b, row.length = size

/-- Every cell value is at most `size` (0 marks an empty cell). -/
def InRange (b : Grid) (size : Nat) : Prop :=
  ∀ p ∈ allPos size, cell b p.1 p.2 ≤ size

/-- No empty cells. -/
def Complete (b : Grid) (size : Nat) : Prop :=
  ∀ p ∈ allPos size, cell b p.1 p.2 ≠ 0

/-- Two positions lie in the same region (box): same row band and column band. -/
def sameRegion (size : Nat) (p q : Nat × Nat) : Prop :=
  p.1 / (getBoxDims size).2 = q.1 / (getBoxDims size).2 ∧
  p.2 / (getBoxDims size).1 = q.2 / (getBoxDims size).1

/-- Two positions are peers: same row, same column, or same region. -/
def peer (size : Nat) (p q : Nat × Nat) : Prop :=
  p.1 = q.1 ∨ p.2 = q.2 ∨ sameRegion size p q

/-- No two distinct peer cells hold the same non-zero value. -/
def NoConflicts (b : Grid) (size : Nat) : Prop :=
  ∀ p ∈ allPos size, ∀ q ∈ allPos size, p ≠ q → peer size p q →
    cell b p.1 p.2 ≠ 0 → cell b q.1 q.2 ≠ cell b p.1 p.2

/-- `b2` agrees with every non-zero (clue) cell of `b`. -/
def ExtendsB (b b2 : Grid) (size : Nat) : Prop :=
  ∀ p ∈ allPos size, cell b p.1 p.2 ≠ 0 → cell b2 p.1 p.2 = cell b p.1 p.2

/-- `S` is a solution of the puzzle `b`: a well-formed, complete,
conflict-free board with values in range that keeps all clues of `b`. -/
def Completion (b S : Grid) (size : Nat) : Prop :=
  Wf S size ∧ InRange S size ∧ Complete S size ∧ NoConflicts S size ∧
  ExtendsB b S size

instance decidableWf (b : Grid) (size : Nat) : Decidable (Wf b size) :=
  decidable_of_iff (b.length = size ∧ ∀ row ∈ b, row.length = size) Iff.rfl

instance decidableInRange (b : Grid) (size : Nat) : Decidable (InRange b size) :=
  decidable_of_iff (∀ p ∈ allPos size, cell b p.1 p.2 ≤ size) Iff.rfl

instance decidableComplete (b : Grid) (size : Nat) : Decidable (Complete b size) :=
  decidable_of_iff (∀ p ∈ allPos size, cell b p.1 p.2 ≠ 0) Iff.rfl

instance decidableSameRegion (size : Nat) (p q : Nat × Nat) :
    Decidable (sameRegion size p q) :=
  decidable_of_iff (p.1 / (getBoxDims size).2 = q.1 / (getBoxDims size).2 ∧
    p.2 / (getBoxDims size).1 = q.2 / (getBoxDims size).1) Iff.rfl

instance decidablePeer (size : Nat) (p q : Nat × Nat) :
    Decidable (peer size p q) :=
  decidable_of_iff (p.1 = q.1 ∨ p.2 = q.2 ∨ sameRegion size p q) Iff.rfl

instance decidableNoConflicts (b : Grid) (size : Nat) :
    Decidable (NoConflicts b size) :=
  decidable_of_iff (∀ p ∈ allPos size, ∀ q ∈ allPos size, p ≠ q →
    peer size p q → cell b p.1 p.2 ≠ 0 →
    cell b q.1 q.2 ≠ cell b p.1 p.2) Iff.rfl

instance decidableExtendsB (b b2 : Grid) (size : Nat) :
    Decidable (ExtendsB b b2 size) :=
  decidable_of_iff (∀ p ∈ allPos size, cell b p.1 p.2 ≠ 0 →
    cell b2 p.1 p.2 = cell b p.1 p.2) Iff.rfl

instance decidableCompletion (b S : Grid) (size : Nat) :
    Decidable (Completion b S size) :=
  decidable_of_iff (Wf S size ∧ InRange S size ∧ Complete S size ∧
    NoConflicts S size ∧ ExtendsB b S size) Iff.rfl

/-- Number of empty cells: the termination measure of the solver. -/
def emptyCount (b : Grid) (size : Nat) : Nat :=
  (allPos size).countP fun p => cell b p.1 p.2 == 0

/-- Number of non-empty cells (clues). -/
def clueCount (b : Grid) (size : Nat) : Nat :=
  (allPos size).countP fun p => cell b p.1 p.2 != 0

/-- The values of row `r`, left to right. -/
def rowList (b : Grid) (size r : Nat) : List Nat :=
  (List.range size).map fun c => cell b r c

/-- The values of column `c`, top to bottom. -/
def colList (b : Grid) (size c : Nat) : List Nat :=
  (List.range size).map fun r => cell b r c

/-- The values of the region with origin `(br·height, bc·width)`. -/
def regionList (b : Grid) (size br bc : Nat) : List Nat :=
  ((List.range (getBoxDims size).2).product (List.range (getBoxDims size).1)).map
    fun p => cell b (br * (getBoxDims size).2 + p.1) (bc * (getBoxDims size).1 + p.2)

/-! ## The randomized solver and the generator

`Math.random` is modelled as a stream `rnd : Nat → Nat` of draws together
with a counter; a draw in `[0, m)` is taken as `rnd k % m`. -/

/-- One Fisher-Yates swap: exchange positions `i` and `j`. -/
def listSwap (l : List Nat) (i j : Nat) : List Nat :=
  (l.set i (l.getD j 0)).set j (l.getD i 0)

/-- The Fisher-Yates loop of `shuffle`: the loop index runs i, i-1, ..., 1,
swapping position i with a random position in [0, i]. -/
def shuffleAux (rnd : Nat → Nat) : Nat → List Nat → Nat → List Nat × Nat
  | 0, l, k => (l, k)
  | i + 1, l, k => shuffleAux rnd i (listSwap l (i + 1) (rnd k % (i + 2))) (k + 1)

/-- `shuffle` from the source. -/
def shuffle (rnd : Nat → Nat) (l : List Nat) (k : Nat) : List Nat × Nat :=
  shuffleAux rnd (l.length - 1) l k

/-- The randomized candidate loop of `solveSudokuRandom`; the recursion `f`
threads the random counter. -/
def tryCandsR (f : Grid → Nat → Option Grid × Nat) (b : Grid) (r c : Nat)
    (size : Nat) : List Nat → Nat → Option Grid × Nat
  | [], k => (none, k)
  | n :: ns, k =>
    if isValidMove b r c n size then
      match f (setCell b r c n) k with
      | (some sol, k2) => (some sol, k2)
      | (none, k2) => tryCandsR f b r c size ns k2
    else tryCandsR f b r c size ns k

/-- The recursive `solve` of `solveSudokuRandom`: shuffle the candidate
list 1..size at every node, then try the candidates in that order. -/
def solveRandomAux (rnd : Nat → Nat) (size : Nat) :
    Nat → Grid → Nat → Option Grid × Nat
  | 0, _, k => (none, k)
  | fuel + 1, b, k =>
    match findEmpty b size with
    | none => (some b, k)
    | some (r, c) =>
      let nk := shuffle rnd ((List.range size).map (· + 1)) k
      tryCandsR (solveRandomAux rnd size fuel) b r c size nk.1 nk.2

/-- `solveSudokuRandom` from the source. -/
def solveSudokuRandom (rnd : Nat → Nat) (inputBoard : Grid) (size : Nat)
    (k : Nat) : Option Grid × Nat :=
  solveRandomAux rnd size (size * size + 1) inputBoard k

/-- The clue table of the generator. -/
def cluesToKeep (size : Nat) (difficulty : Difficulty) : Nat :=
  if size = 9 then
    match difficulty with
    | Difficulty.Easy => 43
    | Difficulty.Medium => 35
    | Difficulty.Hard => 27
  else
    match difficulty with
    | Difficulty.Easy => 24
    | Difficulty.Medium => 18
    | Difficulty.Hard => 12

/-- The removal loop of the generator: repeatedly draw a random cell and
clear it if non-empty, until `remaining` cells have been cleared.  The JS
`while` loop is modelled with fuel (`none` = did not finish in `fuel`
iterations). -/
def removeCells (rnd : Nat → Nat) (size : Nat) :
    Nat → Grid → Nat → Nat → Option (Grid × Nat)
  | 0, b, remaining, k =>
    if remaining = 0 then some (b, k) else none
  | fuel + 1, b, remaining, k =>
    if remaining = 0 then some (b, k)
    else if cell b (rnd k % size) (rnd (k + 1) % size) ≠ 0 then
      removeCells rnd size fuel
        (setCell b (rnd k % size) (rnd (k + 1) % size) 0) (remaining - 1)
        (k + 2)
    else removeCells rnd size fuel b remaining (k + 2)

/-- The tail of `generateSudoku` after the randomized solve: fall back to
the empty grid if the solve failed, otherwise remove cells down to the
clue count. -/
def generateFromSolved (size : Nat) (difficulty : Difficulty)
    (solved : Option Grid) (rnd : Nat → Nat) (k fuel : Nat) : Option Grid :=
  match solved with
  | none => some (createEmptyGrid size)
  | some s =>
    (removeCells rnd size fuel s (size * size - cluesToKeep size difficulty) k).map
      fun g => g.1

/-- `generateSudoku` from the source (randomness explicit; `fuel` bounds
the removal loop, whose JS original is an unbounded `while`). -/
def generateSudoku (size : Nat) (difficulty : Difficulty) (rnd : Nat → Nat)
    (fuel : Nat) : Option Grid :=
  let nk := solveSudokuRandom rnd (createEmptyGrid size) size 0
  generateFromSolved size difficulty nk.1 rnd nk.2 fuel

/-! ## Concrete boards used in counterexamples and witnesses -/

/-- A fully valid solved 6×6 board. -/
def solvedGrid6 : Grid :=
  [[1,2,3,4,5,6],[4,5,6,1,2,3],[2,1,4,3,6,5],
   [3,6,5,2,1,4],[5,3,1,6,4,2],[6,4,2,5,3,1]]

/-- `solvedGrid6` with cell (0,0) cleared: a solvable conflict-free puzzle. -/
def nearGrid6 : Grid :=
  [[0,2,3,4,5,6],[4,5,6,1,2,3],[2,1,4,3,6,5],
   [3,6,5,2,1,4],[5,3,1,6,4,2],[6,4,2,5,3,1]]

/-- A full 6×6 board, all cells in [1,6], with a duplicated 1 in row 0. -/
def dupRowGrid6 : Grid :=
  [[1,1,2,3,4,5],[2,3,4,5,6,1],[3,4,5,6,1,2],
   [4,5,6,1,2,3],[5,6,1,2,3,4],[6,1,2,3,4,5]]

/-- A full 6×6 board, all cells in [1,6], with a duplicated 4 in row 5. -/
def dupRowGrid6b : Grid :=
  [[1,2,3,4,5,6],[4,5,6,1,2,3],[2,3,4,5,6,1],
   [5,6,1,2,3,4],[3,4,5,6,1,2],[6,1,2,3,4,4]]

/-- The spec scenario: a 9×9 board with two 5s in row 0 at columns 0, 1. -/
def twoFivesGrid9 : Grid :=
  [[5,5,0,0,0,0,0,0,0],[0,0,0,0,0,0,0,0,0],[0,0,0,0,0,0,0,0,0],
   [0,0,0,0,0,0,0,0,0],[0,0,0,0,0,0,0,0,0],[0,0,0,0,0,0,0,0,0],
   [0,0,0,0,0,0,0,0,0],[0,0,0,0,0,0,0,0,0],[0,0,0,0,0,0,0,0,0]]

/-- A fully valid solved 9×9 board. -/
def solvedGrid9 : Grid :=
  [[1,2,3,4,5,6,7,8,9],[4,5,6,7,8,9,1,2,3],[7,8,9,1,2,3,4,5,6],
   [2,1,4,3,6,5,8,9,7],[3,6,5,8,9,7,2,1,4],[8,9,7,2,1,4,3,6,5],
   [5,3,1,6,4,2,9,7,8],[6,4,2,9,7,8,5,3,1],[9,7,8,5,3,1,6,4,2]]

/-- The spec seed scenario: row 0 = [5,3,0,0,7,0,0,0,0], rest empty. -/
def seedGrid9 : Grid :=
  [[5,3,0,0,7,0,0,0,0],[0,0,0,0,0,0,0,0,0],[0,0,0,0,0,0,0,0,0],
   [0,0,0,0,0,0,0,0,0],[0,0,0,0,0,0,0,0,0],[0,0,0,0,0,0,0,0,0],
   [0,0,0,0,0,0,0,0,0],[0,0,0,0,0,0,0,0,0],[0,0,0,0,0,0,0,0,0]]

/-- A concrete random stream for generator witnesses: zeros while the
solve of the empty 6×6 board consumes its 180 draws, then draws that walk
the cells in row-major order so the removal loop always hits a fresh
cell. -/
def genRnd6 : Nat → Nat := fun k =>
  if k < 180 then 0
  else if (k - 180) % 2 = 0 then ((k - 180) / 2) / 6
  else ((k - 180) / 2) % 6

/-! ## Heap model

JS boards are arrays of references to row arrays.  A `Heap` stores the row
arrays; a grid value is the list of addresses of its rows.  This makes the
mutation and aliasing behaviour of the solver explicit: the deep copy
allocates fresh addresses, and all solver writes go through `writeCellH`. -/

/-- A store of row arrays; the address of a row is its index. -/
structure Heap where
  rows : List (List Nat)

/-- Read the row at address `a`. -/
def hread (h : Heap) (a : Nat) : List Nat := h.rows.getD a []

/-- Overwrite the row at address `a`. -/
def hwrite (h : Heap) (a : Nat) (row : List Nat) : Heap := ⟨h.rows.set a row⟩

/-- The board denoted by the grid `g` (a list of row addresses) in heap `h`. -/
def readGrid (h : Heap) (g : List Nat) : Grid := g.map fun a => hread h a

/-- `board[r][c] = v` through the heap: mutates the row at address `g[r]`. -/
def writeCellH (h : Heap) (g : List Nat) (r c v : Nat) : Heap :=
  hwrite h (g.getD r 0) ((hread h (g.getD r 0)).set c v)

/-- `inputBoard.map(row => [...row])`: allocate a fresh copy of every row
of `g`, returning the extended heap and the fresh addresses. -/
def deepCopy (h : Heap) : List Nat → Heap × List Nat
  | [] => (h, [])
  | a :: as =>
    let h2 : Heap := ⟨h.rows ++ [hread h a]⟩
    let rest := deepCopy h2 as
    (rest.1, h.rows.length :: rest.2)

/-- Heap-level candidate loop: mirrors `tryCands`, but mutating the heap,
including the explicit reset `board[row][col] = 0` on backtrack. -/
def tryCandsH (size : Nat) (g : List Nat) (f : Heap → Heap × Bool)
    (r c : Nat) : List Nat → Heap → Heap × Bool
  | [], h => (h, false)
  | n :: ns, h =>
    if isValidMove (readGrid h g) r c n size then
      match f (writeCellH h g r c n) with
      | (h2, true) => (h2, true)
      | (h2, false) => tryCandsH size g f r c ns (writeCellH h2 g r c 0)
    else tryCandsH size g f r c ns h

/-- Heap-level recursive solve: mutates the rows addressed by `g`. -/
def solveH (size : Nat) (g : List Nat) : Nat → Heap → Heap × Bool
  | 0, h => (h, false)
  | fuel + 1, h =>
    match findEmpty (readGrid h g) size with
    | none => (h, true)
    | some (r, c) =>
      tryCandsH size g (solveH size g fuel) r c
        ((List.range size).map (· + 1)) h

/-- Heap-level `solveSudoku`: deep-copy the board of the caller, solve the copy
in place, and return the addresses of the copy on success. -/
def solveSudokuH (h : Heap) (g : List Nat) (size : Nat) :
    Heap × Option (List Nat) :=
  let cp := deepCopy h g
  let res := solveH size cp.2 (size * size + 1) cp.1
  if res.2 then (res.1, some cp.2) else (res.1, none)

/-- The board value returned by the heap-level solver. -/
def solveSudokuHBoard (h : Heap) (g : List Nat) (size : Nat) : Option Grid :=
  let res := solveSudokuH h g size
  res.2.map fun g2 => readGrid res.1 g2

/-! ## Basic lemmas about boards and positions -/

theorem allPos_eq_product (size : Nat) :
    allPos size = (List.range size).product (List.range size) := rfl

theorem mem_allPos {size : Nat} {p : Nat × Nat} :
    p ∈ allPos size ↔ p.1 < size ∧ p.2 < size := by
  obtain ⟨a, b⟩ := p
  rw [allPos_eq_product]
  simp [List.pair_mem_product, List.mem_range]

theorem allPos_nodup (size : Nat) : (allPos size).Nodup := by
  rw [allPos_eq_product]
  exact (List.nodup_range size).product (List.nodup_range size)

theorem row_length {b : Grid} {size r : Nat} (hw : Wf b size) (hr : r < size) :
    (b.getD r []).length = size := by
  have hrl : r < b.length := by rw [hw.1]; exact hr
  rw [List.getD_eq_getElem b [] hrl]
  exact hw.2 _ (List.getElem_mem hrl)

theorem getD_set_self {α : Type} {l : List α} {n : Nat} (h : n < l.length)
    (a d : α) : (l.set n a).getD n d = a := by
  rw [List.getD_eq_getElem?_getD, List.getElem?_set_self h, Option.getD_some]

theorem getD_set_ne {α : Type} {l : List α} {m n : Nat} (h : m ≠ n)
    (a d : α) : (l.set m a).getD n d = l.getD n d := by
  rw [List.getD_eq_getElem?_getD, List.getElem?_set_ne h,
    ← List.getD_eq_getElem?_getD]

theorem cell_setCell_self {b : Grid} {size r c : Nat} (hw : Wf b size)
    (hr : r < size) (hc : c < size) (v : Nat) :
    cell (setCell b r c v) r c = v := by
  have hrl : r < b.length := by rw [hw.1]; exact hr
  have hcl : c < (b.getD r []).length := by rw [row_length hw hr]; exact hc
  show ((b.set r ((b.getD r []).set c v)).getD r []).getD c 0 = v
  rw [getD_set_self hrl, getD_set_self hcl]

theorem cell_setCell_ne {b : Grid} {r c v r' c' : Nat}
    (h : r ≠ r' ∨ c ≠ c') : cell (setCell b r c v) r' c' = cell b r' c' := by
  show ((b.set r ((b.getD r []).set c v)).getD r' []).getD c' 0
    = (b.getD r' []).getD c' 0
  rcases h with h | h
  · rw [getD_set_ne h]
  · rcases eq_or_ne r r' with rfl | hne
    · rcases Nat.lt_or_ge r b.length with hrl | hrl
      · rw [getD_set_self hrl, getD_set_ne h]
      · rw [List.set_eq_of_length_le hrl]
    · rw [getD_set_ne hne]

theorem wf_setCell {b : Grid} {size r c : Nat} (hw : Wf b size)
    (hr : r < size) (v : Nat) : Wf (setCell b r c v) size := by
  constructor
  · rw [setCell, List.length_set]; exact hw.1
  · intro row hrow
    rcases List.mem_or_eq_of_mem_set hrow with h | rfl
    · exact hw.2 _ h
    · rw [List.length_set]; exact row_length hw hr

theorem countP_succ_of_flip {α : Type} {l : List α}
    (hnd : l.Nodup) {a : α} (ha : a ∈ l) {p q : α → Bool}
    (hpa : p a = true) (hqa : q a = false)
    (hother : ∀ x ∈ l, x ≠ a → q x = p x) :
    l.countP q + 1 = l.countP p := by
  induction l with
  | nil => cases ha
  | cons x xs ih =>
    have hnd2 := List.nodup_cons.mp hnd
    rcases List.mem_cons.mp ha with heq | hmem
    · subst heq
      have hxs : ∀ y ∈ xs, q y = p y := fun y hy =>
        hother y (List.mem_cons_of_mem _ hy) (fun h => hnd2.1 (h ▸ hy))
      have hc : xs.countP q = xs.countP p :=
        List.countP_congr fun y hy => by rw [hxs y hy]
      rw [List.countP_cons, List.countP_cons, hpa, hqa, hc]
      simp
    · have hxa : x ≠ a := fun h => hnd2.1 (h ▸ hmem)
      have hqp : q x = p x := hother x (List.mem_cons_self x xs) hxa
      have := ih hnd2.2 hmem
        (fun y hy hy2 => hother y (List.mem_cons_of_mem _ hy) hy2)
      rw [List.countP_cons, List.countP_cons, hqp]
      omega

theorem emptyCount_setCell {b : Grid} {size r c v : Nat} (hw : Wf b size)
    (hr : r < size) (hc : c < size) (h0 : cell b r c = 0) (hv : v ≠ 0) :
    emptyCount (setCell b r c v) size + 1 = emptyCount b size := by
  have hmem : (r, c) ∈ allPos size := mem_allPos.mpr (show r < size ∧ c < size from ⟨hr, hc⟩)
  refine countP_succ_of_flip (allPos_nodup size)
    hmem (p := fun p => cell b p.1 p.2 == 0)
    (q := fun p => cell (setCell b r c v) p.1 p.2 == 0) ?_ ?_ ?_
  · simpa using h0
  · simp only [cell_setCell_self hw hr hc v]
    simpa using hv
  · intro x _ hx
    have hne : r ≠ x.1 ∨ c ≠ x.2 := by
      by_contra hcon
      push_neg at hcon
      exact hx (Prod.ext hcon.1.symm hcon.2.symm)
    simp only [cell_setCell_ne hne]

theorem findEmpty_eq_none_iff {b : Grid} {size : Nat} :
    findEmpty b size = none ↔ ∀ p ∈ allPos size, cell b p.1 p.2 ≠ 0 := by
  unfold findEmpty
  rw [List.find?_eq_none]
  constructor
  · intro h p hp
    have := h p hp
    simpa using this
  · intro h p hp
    simpa using h p hp

theorem findEmpty_some {b : Grid} {size r c : Nat}
    (h : findEmpty b size = some (r, c)) :
    r < size ∧ c < size ∧ cell b r c = 0 := by
  have h1 := List.find?_some h
  have h2 := List.mem_of_find?_eq_some h
  have h3 := mem_allPos.mp h2
  refine ⟨h3.1, h3.2, by simpa using h1⟩

/-! ## Characterization of `isValidMove` and `conflictAt` -/

theorem getBoxDims_pos {size : Nat} :
    0 < (getBoxDims size).1 ∧ 0 < (getBoxDims size).2 := by
  unfold getBoxDims
  split <;> [skip; split] <;> simp

/-- The box scan of the source covers exactly the cells in the same region. -/
theorem box_scan_iff {size row col i' j' : Nat} (hs : size = 6 ∨ size = 9)
    (hrow : row < size) (hcol : col < size) :
    (∃ i < (getBoxDims size).2, ∃ j < (getBoxDims size).1,
        row / (getBoxDims size).2 * (getBoxDims size).2 + i = i' ∧
        col / (getBoxDims size).1 * (getBoxDims size).1 + j = j') ↔
      (i' < size ∧ j' < size ∧ sameRegion size (row, col) (i', j')) := by
  rcases hs with rfl | rfl <;>
    simp only [getBoxDims, sameRegion, reduceIte, if_neg (by omega : ¬(6 = 9))] <;>
    constructor
  · rintro ⟨i, hi, j, hj, rfl, rfl⟩
    refine ⟨by omega, by omega, by omega, by omega⟩
  · rintro ⟨h1, h2, h3, h4⟩
    exact ⟨i' - row / 2 * 2, by omega, j' - col / 3 * 3, by omega, by omega, by omega⟩
  · rintro ⟨i, hi, j, hj, rfl, rfl⟩
    refine ⟨by omega, by omega, by omega, by omega⟩
  · rintro ⟨h1, h2, h3, h4⟩
    exact ⟨i' - row / 3 * 3, by omega, j' - col / 3 * 3, by omega, by omega, by omega⟩

/-- `isValidMove` is true exactly when no *other* peer cell holds `num`. -/
theorem isValidMove_eq_true_iff {b : Grid} {size row col num : Nat}
    (hs : size = 6 ∨ size = 9) (hrow : row < size) (hcol : col < size) :
    isValidMove b row col num size = true ↔
      ∀ q ∈ allPos size, q ≠ (row, col) → peer size (row, col) q →
        cell b q.1 q.2 ≠ num := by
  unfold isValidMove
  simp only [Bool.and_eq_true, List.all_eq_true, List.mem_range,
    Bool.not_eq_true', Bool.and_eq_false_iff, beq_eq_false_iff_ne,
    bne_eq_false_iff_eq, Bool.or_eq_false_iff]
  constructor
  · rintro ⟨⟨h1, h2⟩, h3⟩ ⟨i, j⟩ hq hne hpeer
    have hij := mem_allPos.mp hq
    rcases hpeer with he | he | he
    · -- same row
      simp only at he
      subst he
      rcases h1 j hij.2 with h | h
      · exact h
      · exact absurd (show (row, j) = (row, col) from by rw [h]) hne
    · -- same column
      simp only at he
      subst he
      rcases h2 i hij.1 with h | h
      · exact h
      · exact absurd (show (i, col) = (row, col) from by rw [h]) hne
    · -- same region
      have hbox := (box_scan_iff hs hrow hcol).mpr ⟨hij.1, hij.2, he⟩
      obtain ⟨i0, hi0, j0, hj0, hie, hje⟩ := hbox
      rcases h3 i0 hi0 j0 hj0 with h | h
      · rw [hie, hje] at h; exact h
      · rw [hie, hje] at h
        exact absurd (Prod.ext h.1 h.2) hne
  · intro h
    refine ⟨⟨?_, ?_⟩, ?_⟩
    · intro j hj
      by_cases hjc : j = col
      · exact Or.inr hjc.symm
      · refine Or.inl (h (row, j) (mem_allPos.mpr ⟨hrow, hj⟩)
          (fun he => hjc (congrArg Prod.snd he)) (Or.inl rfl))
    · intro i hi
      by_cases hir : i = row
      · exact Or.inr hir.symm
      · refine Or.inl (h (i, col) (mem_allPos.mpr ⟨hi, hcol⟩)
          (fun he => hir (congrArg Prod.fst he)) (Or.inr (Or.inl rfl)))
    · intro i hi j hj
      set i' := row / (getBoxDims size).2 * (getBoxDims size).2 + i with hi'
      set j' := col / (getBoxDims size).1 * (getBoxDims size).1 + j with hj'
      have hbox := (box_scan_iff hs hrow hcol).mp ⟨i, hi, j, hj, rfl, rfl⟩
      by_cases hee : i' = row ∧ j' = col
      · exact Or.inr ⟨hee.1, hee.2⟩
      · refine Or.inl (h (i', j') (mem_allPos.mpr ⟨hbox.1, hbox.2.1⟩) ?_
          (Or.inr (Or.inr hbox.2.2)))
        intro he
        exact hee ⟨congrArg Prod.fst he, congrArg Prod.snd he⟩

/-- A cell is flagged by the conflict scan exactly when it is non-empty and
some *other* peer cell holds the same value. -/
theorem conflictAt_eq_true_iff {b : Grid} {size r c : Nat}
    (hs : size = 6 ∨ size = 9) (hr : r < size) (hc : c < size) :
    conflictAt b size r c = true ↔
      cell b r c ≠ 0 ∧ ∃ q ∈ allPos size, q ≠ (r, c) ∧ peer size (r, c) q ∧
        cell b q.1 q.2 = cell b r c := by
  unfold conflictAt
  by_cases h0 : cell b r c = 0
  · simp [h0]
  · rw [if_neg (by simpa using h0)]
    simp only [List.any_eq_true, List.mem_range, Bool.or_eq_true,
      Bool.and_eq_true, bne_iff_ne, beq_iff_eq, ne_eq]
    constructor
    · rintro ((⟨j, hj, hjc, hcell⟩ | ⟨i, hi, hir, hcell⟩) |
        ⟨i0, hi0, j0, hj0, hne, hcell⟩)
      · exact ⟨h0, (r, j), mem_allPos.mpr ⟨hr, hj⟩,
          fun he => hjc (congrArg Prod.snd he), Or.inl rfl, hcell⟩
      · exact ⟨h0, (i, c), mem_allPos.mpr ⟨hi, hc⟩,
          fun he => hir (congrArg Prod.fst he), Or.inr (Or.inl rfl), hcell⟩
      · have hbox := (box_scan_iff hs hr hc).mp ⟨i0, hi0, j0, hj0, rfl, rfl⟩
        refine ⟨h0, _, mem_allPos.mpr ⟨hbox.1, hbox.2.1⟩, ?_,
          Or.inr (Or.inr hbox.2.2), hcell⟩
        intro he
        rcases hne with hne | hne <;>
          [exact hne (congrArg Prod.fst he); exact hne (congrArg Prod.snd he)]
    · rintro ⟨-, ⟨i, j⟩, hq, hne, hpeer, hcell⟩
      have hij := mem_allPos.mp hq
      rcases hpeer with he | he | he
      · simp only at he
        subst he
        refine Or.inl (Or.inl ⟨j, hij.2, ?_, hcell⟩)
        exact fun h => hne (Prod.ext rfl h)
      · simp only at he
        subst he
        refine Or.inl (Or.inr ⟨i, hij.1, ?_, hcell⟩)
        exact fun h => hne (Prod.ext h rfl)
      · obtain ⟨i0, hi0, j0, hj0, hie, hje⟩ :=
          (box_scan_iff hs hr hc).mpr ⟨hij.1, hij.2, he⟩
        refine Or.inr ⟨i0, hi0, j0, hj0, ?_, by rw [hie, hje]; exact hcell⟩
        rw [hie, hje]
        by_contra hcon
        push_neg at hcon
        exact hne (Prod.ext hcon.1 hcon.2)

/-- Membership in the conflict scan result. -/
theorem mem_validateBoard {b : Grid} {size : Nat} {p : Nat × Nat}
    (hs : size = 6 ∨ size = 9) :
    p ∈ validateBoard b size ↔
      p ∈ allPos size ∧ cell b p.1 p.2 ≠ 0 ∧
      ∃ q ∈ allPos size, q ≠ p ∧ peer size p q ∧
        cell b q.1 q.2 = cell b p.1 p.2 := by
  obtain ⟨r, c⟩ := p
  unfold validateBoard
  rw [List.mem_filter]
  constructor
  · rintro ⟨hmem, hconf⟩
    have hij := mem_allPos.mp hmem
    have := (conflictAt_eq_true_iff hs hij.1 hij.2).mp hconf
    exact ⟨hmem, this.1, this.2⟩
  · rintro ⟨hmem, h0, hex⟩
    have hij := mem_allPos.mp hmem
    exact ⟨hmem, (conflictAt_eq_true_iff hs hij.1 hij.2).mpr ⟨h0, hex⟩⟩

/-- The peer relation is symmetric. -/
theorem peer_symm {size : Nat} {p q : Nat × Nat} (h : peer size p q) :
    peer size q p := by
  rcases h with h | h | h
  · exact Or.inl h.symm
  · exact Or.inr (Or.inl h.symm)
  · exact Or.inr (Or.inr ⟨h.1.symm, h.2.symm⟩)

/-- The conflict scan is empty exactly when the board is conflict-free. -/
theorem validateBoard_eq_nil_iff {b : Grid} {size : Nat}
    (hs : size = 6 ∨ size = 9) :
    validateBoard b size = [] ↔ NoConflicts b size := by
  rw [List.eq_nil_iff_forall_not_mem]
  constructor
  · intro h p hp q hq hne hpeer h0 heq
    exact h p ((mem_validateBoard hs).mpr
      ⟨hp, h0, q, hq, fun he => hne he.symm, hpeer, heq⟩)
  · intro h p hp
    obtain ⟨hmem, h0, q, hq, hne, hpeer, heq⟩ := (mem_validateBoard hs).mp hp
    exact h p hmem q hq (fun he => hne he.symm) hpeer h0 heq

/-! ## Soundness and completeness of the candidate loop -/

theorem tryCands_some {f : Grid → Option Grid} {b : Grid} {r c size : Nat}
    {cands : List Nat} {sol : Grid}
    (h : tryCands f b r c size cands = some sol) :
    ∃ n ∈ cands, isValidMove b r c n size = true ∧
      f (setCell b r c n) = some sol := by
  induction cands with
  | nil => simp [tryCands] at h
  | cons n ns ih =>
    simp only [tryCands] at h
    by_cases hv : isValidMove b r c n size
    · rw [if_pos hv] at h
      cases hf : f (setCell b r c n) with
      | some s =>
        rw [hf] at h
        cases h
        exact ⟨n, List.mem_cons_self n ns, hv, hf⟩
      | none =>
        rw [hf] at h
        obtain ⟨m, hm, h1, h2⟩ := ih h
        exact ⟨m, List.mem_cons_of_mem _ hm, h1, h2⟩
    · rw [if_neg hv] at h
      obtain ⟨m, hm, h1, h2⟩ := ih h
      exact ⟨m, List.mem_cons_of_mem _ hm, h1, h2⟩

theorem tryCands_none {f : Grid → Option Grid} {b : Grid} {r c size : Nat}
    {cands : List Nat} :
    tryCands f b r c size cands = none ↔
      ∀ n ∈ cands, isValidMove b r c n size = true →
        f (setCell b r c n) = none := by
  induction cands with
  | nil => simp [tryCands]
  | cons n ns ih =>
    simp only [tryCands]
    by_cases hv : isValidMove b r c n size
    · rw [if_pos hv]
      cases hf : f (setCell b r c n) with
      | some s =>
        constructor
        · intro h; cases h
        · intro hR
          have := hR n (List.mem_cons_self n ns) hv
          rw [hf] at this
          cases this
      | none =>
        rw [ih]
        constructor
        · intro h m hm hvm
          rcases List.mem_cons.mp hm with heq | hmem
          · subst heq; exact hf
          · exact h m hmem hvm
        · intro h m hm hvm
          exact h m (List.mem_cons_of_mem _ hm) hvm
    · rw [if_neg hv, ih]
      constructor
      · intro h m hm hvm
        rcases List.mem_cons.mp hm with heq | hmem
        · subst heq; exact absurd hvm hv
        · exact h m hmem hvm
      · intro h m hm hvm
        exact h m (List.mem_cons_of_mem _ hm) hvm

theorem tryCands_some_of_mem {f : Grid → Option Grid} {b : Grid}
    {r c size v : Nat} {cands : List Nat}
    (hv : v ∈ cands) (hval : isValidMove b r c v size = true)
    (hf : f (setCell b r c v) ≠ none) :
    tryCands f b r c size cands ≠ none := by
  intro h
  exact hf (tryCands_none.mp h v hv hval)

/-! ## Invariant preservation by a legal placement -/

theorem inRange_setCell {b : Grid} {size r c n : Nat} (hir : InRange b size)
    (hn : n ≤ size) : InRange (setCell b r c n) size := by
  intro p hp
  by_cases he : r = p.1 ∧ c = p.2
  · obtain ⟨a, d⟩ := p
    simp only at he
    rw [← he.1, ← he.2]
    by_cases hb : r < b.length
    · rcases Nat.lt_or_ge c (b.getD r []).length with hcl | hcl
      · show ((b.set r ((b.getD r []).set c n)).getD r []).getD c 0 ≤ size
        rw [getD_set_self hb, getD_set_self hcl]
        exact hn
      · show ((b.set r ((b.getD r []).set c n)).getD r []).getD c 0 ≤ size
        rw [getD_set_self hb, List.set_eq_of_length_le hcl]
        have := hir (r, c) ?_
        · exact this
        · rw [← he.1, ← he.2] at hp; exact hp
    · show ((b.set r ((b.getD r []).set c n)).getD r []).getD c 0 ≤ size
      rw [List.set_eq_of_length_le (Nat.le_of_not_lt hb)]
      have := hir (r, c) ?_
      · exact this
      · rw [← he.1, ← he.2] at hp; exact hp
  · have hne : r ≠ p.1 ∨ c ≠ p.2 := by
      by_contra hcon
      push_neg at hcon
      exact he ⟨hcon.1, hcon.2⟩
    rw [cell_setCell_ne hne]
    exact hir p hp

theorem noConflicts_setCell {b : Grid} {size r c n : Nat}
    (hs : size = 6 ∨ size = 9) (hr : r < size) (hc : c < size)
    (hv : isValidMove b r c n size = true) (hnc : NoConflicts b size)
    (hw : Wf b size) :
    NoConflicts (setCell b r c n) size := by
  have hchar := (isValidMove_eq_true_iff hs hr hc).mp hv
  intro p hp q hq hne hpeer hp0
  by_cases hpe : p = (r, c)
  · subst hpe
    rw [cell_setCell_self hw hr hc]
    have hqne : q ≠ (r, c) := fun h => hne h.symm
    have hq2 : r ≠ q.1 ∨ c ≠ q.2 := by
      by_contra hcon
      push_neg at hcon
      exact hqne (Prod.ext hcon.1.symm hcon.2.symm)
    rw [cell_setCell_ne hq2]
    exact hchar q hq hqne hpeer
  · have hp2 : r ≠ p.1 ∨ c ≠ p.2 := by
      by_contra hcon
      push_neg at hcon
      exact hpe (Prod.ext hcon.1.symm hcon.2.symm)
    rw [cell_setCell_ne hp2] at hp0 ⊢
    by_cases hqe : q = (r, c)
    · subst hqe
      rw [cell_setCell_self hw hr hc]
      intro heq
      exact hchar p hp hpe (peer_symm hpeer) heq.symm
    · have hq2 : r ≠ q.1 ∨ c ≠ q.2 := by
        by_contra hcon
        push_neg at hcon
        exact hqe (Prod.ext hcon.1.symm hcon.2.symm)
      rw [cell_setCell_ne hq2]
      exact hnc p hp q hq hne hpeer hp0

/-! ## Soundness of the deterministic solver -/

theorem solveAux_sound {size : Nat} (hs : size = 6 ∨ size = 9) :
    ∀ fuel (b sol : Grid), Wf b size → InRange b size → NoConflicts b size →
      solveAux size fuel b = some sol →
      Wf sol size ∧ InRange sol size ∧ NoConflicts sol size ∧
        Complete sol size ∧ ExtendsB b sol size := by
  intro fuel
  induction fuel with
  | zero =>
    intro b sol _ _ _ h
    simp [solveAux] at h
  | succ fuel ih =>
    intro b sol hw hir hnc hsol
    rw [solveAux] at hsol
    cases hfe : findEmpty b size with
    | none =>
      rw [hfe] at hsol
      cases hsol
      refine ⟨hw, hir, hnc, ?_, fun p hp h0 => rfl⟩
      intro p hp
      exact (findEmpty_eq_none_iff.mp hfe) p hp
    | some rc =>
      obtain ⟨r, c⟩ := rc
      rw [hfe] at hsol
      obtain ⟨hr, hc, h0⟩ := findEmpty_some hfe
      have hsol2 : tryCands (solveAux size fuel) b r c size
          ((List.range size).map (· + 1)) = some sol := hsol
      obtain ⟨n, hmem, hvalid, hrec⟩ := tryCands_some hsol2
      have hn : 1 ≤ n ∧ n ≤ size := by
        simp only [List.mem_map, List.mem_range] at hmem
        obtain ⟨m, hm, rfl⟩ := hmem
        omega
      have hw2 : Wf (setCell b r c n) size := wf_setCell hw hr n
      have hir2 : InRange (setCell b r c n) size := inRange_setCell hir hn.2
      have hnc2 : NoConflicts (setCell b r c n) size :=
        noConflicts_setCell hs hr hc hvalid hnc hw
      obtain ⟨sw, si, snc, sc2, sext⟩ := ih _ _ hw2 hir2 hnc2 hrec
      refine ⟨sw, si, snc, sc2, ?_⟩
      intro p hp hp0
      have hpne : r ≠ p.1 ∨ c ≠ p.2 := by
        by_contra hcon
        push_neg at hcon
        rw [← hcon.1, ← hcon.2] at hp0
        exact hp0 h0
      have := sext p hp (by rw [cell_setCell_ne hpne]; exact hp0)
      rw [cell_setCell_ne hpne] at this
      exact this

/-! ## Completeness of the deterministic solver -/

theorem solveAux_complete {size : Nat} (hs : size = 6 ∨ size = 9) :
    ∀ fuel (b : Grid), Wf b size → emptyCount b size < fuel →
      (∃ S, Completion b S size) → solveAux size fuel b ≠ none := by
  intro fuel
  induction fuel with
  | zero =>
    intro b _ hcount _
    exact absurd hcount (Nat.not_lt_zero _)
  | succ fuel ih =>
    rintro b hw hcount ⟨S, hS⟩
    rw [solveAux]
    cases hfe : findEmpty b size with
    | none => simp
    | some rc =>
      obtain ⟨r, c⟩ := rc
      obtain ⟨hr, hc, h0⟩ := findEmpty_some hfe
      have hrcmem : (r, c) ∈ allPos size :=
        mem_allPos.mpr (show r < size ∧ c < size from ⟨hr, hc⟩)
      have hv1 : 1 ≤ cell S r c :=
        Nat.one_le_iff_ne_zero.mpr (hS.2.2.1 (r, c) hrcmem)
      have hv2 : cell S r c ≤ size := hS.2.1 (r, c) hrcmem
      have hvalid : isValidMove b r c (cell S r c) size = true := by
        rw [isValidMove_eq_true_iff hs hr hc]
        intro q hq hne hpeer heq
        have hq0 : cell b q.1 q.2 ≠ 0 := by omega
        have hSq : cell S q.1 q.2 = cell S r c := by
          rw [hS.2.2.2.2 q hq hq0, heq]
        have := hS.2.2.2.1 (r, c) hrcmem q hq (fun h => hne h.symm) hpeer
          (by show cell S r c ≠ 0; omega)
        exact this hSq
      have hmem : cell S r c ∈ (List.range size).map (· + 1) := by
        simp only [List.mem_map, List.mem_range]
        exact ⟨cell S r c - 1, by omega, by omega⟩
      have hcomp2 : Completion (setCell b r c (cell S r c)) S size := by
        refine ⟨hS.1, hS.2.1, hS.2.2.1, hS.2.2.2.1, ?_⟩
        intro p hp hp0
        by_cases hpe : p = (r, c)
        · subst hpe
          rw [cell_setCell_self hw hr hc]
        · have hp2 : r ≠ p.1 ∨ c ≠ p.2 := by
            by_contra hcon
            push_neg at hcon
            exact hpe (Prod.ext hcon.1.symm hcon.2.symm)
          rw [cell_setCell_ne hp2] at hp0 ⊢
          exact hS.2.2.2.2 p hp hp0
      have hcount2 : emptyCount (setCell b r c (cell S r c)) size < fuel := by
        have := emptyCount_setCell hw hr hc h0 (show cell S r c ≠ 0 by omega)
        omega
      have hrec := ih (setCell b r c (cell S r c))
        (wf_setCell hw hr (cell S r c)) hcount2 ⟨S, hcomp2⟩
      exact tryCands_some_of_mem hmem hvalid hrec

/-! ## Rows, columns and regions of a complete conflict-free board -/

theorem pair_mem_allPos {size a b2 : Nat} (h1 : a < size) (h2 : b2 < size) :
    ((a, b2) : Nat × Nat) ∈ allPos size :=
  mem_allPos.mpr (show a < size ∧ b2 < size from ⟨h1, h2⟩)

theorem emptyCount_le (b : Grid) (size : Nat) :
    emptyCount b size ≤ size * size := by
  have h := List.countP_le_length
    (p := fun p : Nat × Nat => cell b p.1 p.2 == 0) (l := allPos size)
  have hlen : (allPos size).length = size * size := by
    show ((List.range size) ×ˢ (List.range size)).length = size * size
    rw [List.length_product, List.length_range]
  rw [← hlen]
  exact h

theorem perm_one_to_n {l : List Nat} {n : Nat} (hlen : l.length = n)
    (hnd : l.Nodup) (hmem : ∀ v ∈ l, 1 ≤ v ∧ v ≤ n) :
    l.Perm (List.range' 1 n) := by
  have hsub : l ⊆ List.range' 1 n := by
    intro v hv
    have h := hmem v hv
    rw [List.mem_range']
    exact ⟨v - 1, by omega, by omega⟩
  exact (hnd.subperm hsub).perm_of_length_le
    (by rw [List.length_range', hlen])

theorem rowList_perm {b : Grid} {size r : Nat}
    (hir : InRange b size) (hnc : NoConflicts b size) (hcomp : Complete b size)
    (hr : r < size) : (rowList b size r).Perm (List.range' 1 size) := by
  apply perm_one_to_n
  · simp [rowList]
  · refine List.Nodup.map_on ?_ (List.nodup_range size)
    intro c1 h1 c2 h2 heq
    by_contra hne
    have hm1 := pair_mem_allPos hr (List.mem_range.mp h1)
    have hm2 := pair_mem_allPos hr (List.mem_range.mp h2)
    have hd : ((r, c1) : Nat × Nat) ≠ (r, c2) :=
      fun h => hne (congrArg Prod.snd h)
    exact hnc (r, c1) hm1 (r, c2) hm2 hd (Or.inl rfl)
      (hcomp (r, c1) hm1) heq.symm
  · intro v hv
    rw [rowList, List.mem_map] at hv
    obtain ⟨c, hc, rfl⟩ := hv
    have hm := pair_mem_allPos hr (List.mem_range.mp hc)
    exact ⟨Nat.one_le_iff_ne_zero.mpr (hcomp (r, c) hm), hir (r, c) hm⟩

theorem colList_perm {b : Grid} {size c : Nat}
    (hir : InRange b size) (hnc : NoConflicts b size) (hcomp : Complete b size)
    (hc : c < size) : (colList b size c).Perm (List.range' 1 size) := by
  apply perm_one_to_n
  · simp [colList]
  · refine List.Nodup.map_on ?_ (List.nodup_range size)
    intro r1 h1 r2 h2 heq
    by_contra hne
    have hm1 := pair_mem_allPos (List.mem_range.mp h1) hc
    have hm2 := pair_mem_allPos (List.mem_range.mp h2) hc
    have hd : ((r1, c) : Nat × Nat) ≠ (r2, c) :=
      fun h => hne (congrArg Prod.fst h)
    exact hnc (r1, c) hm1 (r2, c) hm2 hd (Or.inr (Or.inl rfl))
      (hcomp (r1, c) hm1) heq.symm
  · intro v hv
    rw [colList, List.mem_map] at hv
    obtain ⟨r, hrm, rfl⟩ := hv
    have hm := pair_mem_allPos (List.mem_range.mp hrm) hc
    exact ⟨Nat.one_le_iff_ne_zero.mpr (hcomp (r, c) hm), hir (r, c) hm⟩

theorem regionList_perm {b : Grid} {size br bc : Nat} (hs : size = 6 ∨ size = 9)
    (hir : InRange b size) (hnc : NoConflicts b size) (hcomp : Complete b size)
    (hbr : br < size / (getBoxDims size).2)
    (hbc : bc < size / (getBoxDims size).1) :
    (regionList b size br bc).Perm (List.range' 1 size) := by
  have hwd : (getBoxDims size).1 = 3 := by rcases hs with rfl | rfl <;> rfl
  have hht : (getBoxDims size).2 = size / 3 := by rcases hs with rfl | rfl <;> rfl
  have hmul : 3 * (size / 3) = size := by rcases hs with rfl | rfl <;> rfl
  rw [hwd] at hbc
  rw [hht] at hbr
  apply perm_one_to_n
  · rw [regionList, List.length_map]
    show ((List.range (getBoxDims size).2) ×ˢ
      (List.range (getBoxDims size).1)).length = size
    rw [List.length_product, List.length_range, List.length_range, hwd, hht]
    omega
  · refine List.Nodup.map_on ?_
      ((List.nodup_range _).product (List.nodup_range _))
    rintro ⟨i1, j1⟩ hp1 ⟨i2, j2⟩ hp2 heq
    rw [List.pair_mem_product, List.mem_range, List.mem_range] at hp1 hp2
    rw [hwd, hht] at hp1 hp2
    by_contra hne
    simp only at heq
    rw [hwd, hht] at heq
    have hb1 : br * (size / 3) + i1 < size := by
      rcases hs with rfl | rfl <;> omega
    have hb2 : br * (size / 3) + i2 < size := by
      rcases hs with rfl | rfl <;> omega
    have hc1 : bc * 3 + j1 < size := by rcases hs with rfl | rfl <;> omega
    have hc2 : bc * 3 + j2 < size := by rcases hs with rfl | rfl <;> omega
    have hm1 := pair_mem_allPos hb1 hc1
    have hm2 := pair_mem_allPos hb2 hc2
    have hd : ((br * (size / 3) + i1, bc * 3 + j1) : Nat × Nat)
        ≠ (br * (size / 3) + i2, bc * 3 + j2) := by
      intro h
      have e1 := congrArg Prod.fst h
      have e2 := congrArg Prod.snd h
      simp only at e1 e2
      exact hne (by rw [Prod.mk.injEq]; omega)
    have hpeer : peer size (br * (size / 3) + i1, bc * 3 + j1)
        (br * (size / 3) + i2, bc * 3 + j2) := by
      refine Or.inr (Or.inr ⟨?_, ?_⟩)
      · show (br * (size / 3) + i1) / (getBoxDims size).2
          = (br * (size / 3) + i2) / (getBoxDims size).2
        rw [hht]
        rcases hs with rfl | rfl <;> omega
      · show (bc * 3 + j1) / (getBoxDims size).1
          = (bc * 3 + j2) / (getBoxDims size).1
        rw [hwd]
        rcases hs with rfl | rfl <;> omega
    exact hnc _ hm1 _ hm2 hd hpeer (hcomp _ hm1) heq.symm
  · intro v hv
    rw [regionList, List.mem_map] at hv
    obtain ⟨⟨i, j⟩, hp, rfl⟩ := hv
    rw [List.pair_mem_product, List.mem_range, List.mem_range] at hp
    rw [hwd, hht] at hp
    have hb : br * (getBoxDims size).2 + i < size := by
      rw [hht]
      rcases hs with rfl | rfl <;> omega
    have hcb : bc * (getBoxDims size).1 + j < size := by
      rw [hwd]
      rcases hs with rfl | rfl <;> omega
    have hm := pair_mem_allPos hb hcb
    exact ⟨Nat.one_le_iff_ne_zero.mpr (hcomp _ hm), hir _ hm⟩

/-! ## Claim C1: partial correctness of `solveSudoku` -/

/-- C1, counterexample: on a fully filled 6×6 board whose cells are all in
[1,6] but whose row 0 repeats the value 1, `solveSudoku` returns the board
itself, and its row 0 is not a permutation of 1..6.  The claim as stated
(with no conflict-free precondition on the input) is therefore false. -/
theorem claim1_counterexample :
    Wf dupRowGrid6 6 ∧ InRange dupRowGrid6 6 ∧
    solveSudoku dupRowGrid6 6 = some dupRowGrid6 ∧
    ¬ (rowList dupRowGrid6 6 0).Perm (List.range' 1 6) := by decide

/-- C1 (amended with the precondition that the input board has no
conflicts, i.e. `validateBoard` returns the empty list): if
`solveSudoku B size` returns a board `B2`, then `B2` has no empty cells
(every cell is in 1..size), every row, column and region of `B2` is a
permutation of 1..size, and `B2` agrees with `B` at every non-zero cell. -/
theorem claim1_solveSudoku_correct {b b2 : Grid} {size : Nat}
    (hs : size = 6 ∨ size = 9) (hw : Wf b size) (hir : InRange b size)
    (hval : validateBoard b size = [])
    (hsol : solveSudoku b size = some b2) :
    (∀ p ∈ allPos size, 1 ≤ cell b2 p.1 p.2 ∧ cell b2 p.1 p.2 ≤ size) ∧
    (∀ r < size, (rowList b2 size r).Perm (List.range' 1 size)) ∧
    (∀ c < size, (colList b2 size c).Perm (List.range' 1 size)) ∧
    (∀ br < size / (getBoxDims size).2, ∀ bc < size / (getBoxDims size).1,
      (regionList b2 size br bc).Perm (List.range' 1 size)) ∧
    (∀ p ∈ allPos size, cell b p.1 p.2 ≠ 0 →
      cell b2 p.1 p.2 = cell b p.1 p.2) := by
  have hnc := (validateBoard_eq_nil_iff hs).mp hval
  obtain ⟨sw, si, snc, scp, sext⟩ :=
    solveAux_sound hs (size * size + 1) b b2 hw hir hnc hsol
  refine ⟨?_, ?_, ?_, ?_, sext⟩
  · intro p hp
    exact ⟨Nat.one_le_iff_ne_zero.mpr (scp p hp), si p hp⟩
  · intro r hr
    exact rowList_perm si snc scp hr
  · intro c hc
    exact colList_perm si snc scp hc
  · intro br hbr bc hbc
    exact regionList_perm hs si snc scp hbr hbc

/-- C1, witness: the amended theorem applied to a concrete solvable 6×6
puzzle. -/
theorem claim1_witness :
    (rowList solvedGrid6 6 0).Perm (List.range' 1 6) ∧
    (regionList solvedGrid6 6 0 0).Perm (List.range' 1 6) ∧
    cell solvedGrid6 0 1 = cell nearGrid6 0 1 := by
  have h := claim1_solveSudoku_correct (Or.inl rfl) (by decide) (by decide)
    (by decide) (by decide : solveSudoku nearGrid6 6 = some solvedGrid6)
  exact ⟨h.2.1 0 (by decide), h.2.2.2.1 0 (by decide) 0 (by decide),
    h.2.2.2.2 (0, 1) (by decide) (by decide)⟩

/-! ## Claim C2: `solveSudoku` returns null iff no completion exists -/

/-- C2, counterexample: a fully filled conflicted board (two 4s in row 5,
all cells in [1,6]) has no completion, yet `solveSudoku` does not return
null on it — so the claimed equivalence is false without a conflict-free
precondition. -/
theorem claim2_counterexample :
    Wf dupRowGrid6b 6 ∧ InRange dupRowGrid6b 6 ∧
    solveSudoku dupRowGrid6b 6 ≠ none ∧
    ¬ ∃ S, Completion dupRowGrid6b S 6 := by
  refine ⟨by decide, by decide, by decide, ?_⟩
  rintro ⟨S, hS⟩
  have h1 : cell S 5 4 = 4 :=
    (hS.2.2.2.2 (5, 4) (by decide) (by decide)).trans (by decide)
  have h2 : cell S 5 5 = 4 :=
    (hS.2.2.2.2 (5, 5) (by decide) (by decide)).trans (by decide)
  have h3 := hS.2.2.2.1 (5, 4) (by decide) (5, 5) (by decide) (by decide)
    (Or.inl rfl) (show cell S 5 4 ≠ 0 by omega)
  exact h3 (h2.trans h1.symm)

/-- C2 (amended with the precondition that the input board has no
conflicts): `solveSudoku` returns null iff no completed conflict-free
board agreeing with every non-zero cell of the input exists.  (The
direction "a completion exists → not null" — the backtracking search
always finds a solution when one exists — is what `solveAux_complete`
establishes.) -/
theorem claim2_solveSudoku_none_iff {b : Grid} {size : Nat}
    (hs : size = 6 ∨ size = 9) (hw : Wf b size) (hir : InRange b size)
    (hval : validateBoard b size = []) :
    solveSudoku b size = none ↔ ¬ ∃ S, Completion b S size := by
  constructor
  · intro hnone hex
    have hfuel : emptyCount b size < size * size + 1 := by
      have := emptyCount_le b size
      omega
    exact solveAux_complete hs (size * size + 1) b hw hfuel hex hnone
  · intro hnex
    cases hres : solveSudoku b size with
    | none => rfl
    | some sol =>
      obtain ⟨sw, si, snc, scp, sext⟩ := solveAux_sound hs (size * size + 1)
        b sol hw hir ((validateBoard_eq_nil_iff hs).mp hval) hres
      exact absurd ⟨sol, sw, si, scp, snc, sext⟩ hnex

/-- C2, witness: by the theorem, the concrete solvable puzzle (on which
the solver returns a board) has a completion. -/
theorem claim2_witness : ∃ S, Completion nearGrid6 S 6 := by
  have h := claim2_solveSudoku_none_iff (b := nearGrid6) (Or.inl rfl)
    (by decide) (by decide) (by decide)
  by_contra hn
  exact (by decide : solveSudoku nearGrid6 6 ≠ none) (h.mpr hn)

/-! ## Claim C3: characterization of `isValidMove` -/

/-- C3: `isValidMove board row col value size` is true exactly when no
in-range cell other than `(row,col)` itself that shares a row, column or
region with `(row,col)` currently holds `value`.  In particular the cell
itself is exempt, so the function can re-validate a cell that already
holds the candidate value. -/
theorem claim3_isValidMove_iff {board : Grid} {size row col value : Nat}
    (hs : size = 6 ∨ size = 9) (hrow : row < size) (hcol : col < size)
    (_hv1 : 1 ≤ value) (_hv2 : value ≤ size) :
    isValidMove board row col value size = true ↔
      ∀ i j, i < size → j < size → (i, j) ≠ (row, col) →
        peer size (row, col) (i, j) → cell board i j ≠ value := by
  rw [isValidMove_eq_true_iff hs hrow hcol]
  constructor
  · intro h i j hi hj hne hp
    exact h (i, j) (pair_mem_allPos hi hj) hne hp
  · intro h q hq hne hp
    obtain ⟨i, j⟩ := q
    exact h i j (mem_allPos.mp hq).1 (mem_allPos.mp hq).2 hne hp

/-- C3, witness: the characterization applied at a concrete board and
cell; the second conjunct exercises the self-exemption (cell (0,0) of the
seed board already holds 5 and no other peer holds 5, so re-validating it
returns true). -/
theorem claim3_witness :
    (isValidMove seedGrid9 0 2 5 9 = true ↔
      ∀ i j, i < 9 → j < 9 → (i, j) ≠ (0, 2) →
        peer 9 (0, 2) (i, j) → cell seedGrid9 i j ≠ 5) ∧
    isValidMove seedGrid9 0 0 5 9 = true := by
  constructor
  · exact claim3_isValidMove_iff (Or.inr rfl) (by decide) (by decide)
      (by decide) (by decide)
  · decide

/-! ## Claim C4: `validateBoard` is a symmetric pairwise test -/

/-- C4: whenever two distinct in-range peer cells hold the same non-zero
value, BOTH appear in the result of `validateBoard`; an empty (zero) cell
never appears; and a board with no duplicated peers yields the empty
list. -/
theorem claim4_validateBoard_pairwise {board : Grid} {size : Nat}
    (hs : size = 6 ∨ size = 9) :
    (∀ p q : Nat × Nat, p ∈ allPos size → q ∈ allPos size → p ≠ q →
        peer size p q → cell board p.1 p.2 = cell board q.1 q.2 →
        cell board p.1 p.2 ≠ 0 →
        p ∈ validateBoard board size ∧ q ∈ validateBoard board size) ∧
    (∀ p : Nat × Nat, cell board p.1 p.2 = 0 →
        p ∉ validateBoard board size) ∧
    (NoConflicts board size → validateBoard board size = []) := by
  refine ⟨?_, ?_, fun h => (validateBoard_eq_nil_iff hs).mpr h⟩
  · intro p q hp hq hne hpeer heq h0
    constructor
    · exact (mem_validateBoard hs).mpr
        ⟨hp, h0, q, hq, fun h => hne h.symm, hpeer, heq.symm⟩
    · refine (mem_validateBoard hs).mpr
        ⟨hq, ?_, p, hp, hne, peer_symm hpeer, heq⟩
      rw [← heq]
      exact h0
  · intro p h0 hmem
    exact ((mem_validateBoard hs).mp hmem).2.1 h0

/-- C4, witness: the spec scenario — two 5s in row 0 at columns 0 and 1 of
a 9×9 board; both cells are reported. -/
theorem claim4_witness :
    ((0, 0) : Nat × Nat) ∈ validateBoard twoFivesGrid9 9 ∧
    ((0, 1) : Nat × Nat) ∈ validateBoard twoFivesGrid9 9 :=
  (claim4_validateBoard_pairwise (Or.inr rfl)).1 (0, 0) (0, 1)
    (by decide) (by decide) (by decide) (Or.inl rfl) (by decide) (by decide)

/-! ## Claim C10: `validateBoard` is a pure function -/

/-- C10: `validateBoard` applied twice to the same board yields the same
result, and the result depends only on the in-range cell values of the
argument (for the engine sizes): it is a pure function of the observable
board, with no hidden state.  (Mutation of the argument is impossible by
construction in this embedding, mirroring that the source function
performs no writes.) -/
theorem claim10_validateBoard_pure :
    (∀ (board : Grid) (size : Nat),
      validateBoard board size = validateBoard board size) ∧
    (∀ (b1 b2 : Grid) (size : Nat), size = 6 ∨ size = 9 →
      (∀ p ∈ allPos size, cell b1 p.1 p.2 = cell b2 p.1 p.2) →
      validateBoard b1 size = validateBoard b2 size) := by
  refine ⟨fun board size => rfl, ?_⟩
  intro b1 b2 size hs hagree
  unfold validateBoard
  apply List.filter_congr
  intro p hp
  obtain ⟨r, c⟩ := p
  have hrc := mem_allPos.mp hp
  rw [Bool.eq_iff_iff, conflictAt_eq_true_iff hs hrc.1 hrc.2,
    conflictAt_eq_true_iff hs hrc.1 hrc.2]
  have hc0 : cell b1 r c = cell b2 r c := hagree (r, c) hp
  constructor
  · rintro ⟨h0, q, hq, hne, hpeer, heq⟩
    refine ⟨by rw [← hc0]; exact h0, q, hq, hne, hpeer, ?_⟩
    rw [← hagree q hq, ← hc0]
    exact heq
  · rintro ⟨h0, q, hq, hne, hpeer, heq⟩
    refine ⟨by rw [hc0]; exact h0, q, hq, hne, hpeer, ?_⟩
    rw [hagree q hq, hc0]
    exact heq

/-- C10, witness: purity at concrete boards — appending a junk row beyond
the 6×6 extent does not change the conflict scan. -/
theorem claim10_witness :
    validateBoard solvedGrid6 6
      = validateBoard (solvedGrid6 ++ [[9, 9, 9]]) 6 :=
  claim10_validateBoard_pure.2 solvedGrid6 (solvedGrid6 ++ [[9, 9, 9]]) 6
    (Or.inl rfl) (by decide)

/-! ## The shuffle produces a permutation of its input -/

theorem cons_getD_set_perm :
    ∀ (t : List Nat) (j x : Nat), j < t.length →
      ((t.getD j 0) :: t.set j x).Perm (x :: t)
  | [], j, x, h => absurd h (by simp)
  | y :: s, 0, x, _ => List.Perm.swap x y s
  | y :: s, j + 1, x, h => by
    have hj : j < s.length := by simpa using h
    show ((s.getD j 0) :: y :: s.set j x).Perm (x :: y :: s)
    exact ((List.Perm.swap y (s.getD j 0) (s.set j x)).trans
      ((cons_getD_set_perm s j x hj).cons y)).trans (List.Perm.swap x y s)

theorem listSwap_perm :
    ∀ (l : List Nat) (i j : Nat), i < l.length → j < l.length →
      (listSwap l i j).Perm l
  | [], i, j, hi, _ => absurd hi (by simp)
  | x :: t, 0, 0, _, _ => by
    unfold listSwap
    simp
  | x :: t, 0, m + 1, _, hj => by
    have hm : m < t.length := by simpa using hj
    have he : listSwap (x :: t) 0 (m + 1) = (t.getD m 0) :: t.set m x := rfl
    rw [he]
    exact cons_getD_set_perm t m x hm
  | x :: t, n + 1, 0, hi, _ => by
    have hn : n < t.length := by simpa using hi
    have he : listSwap (x :: t) (n + 1) 0 = (t.getD n 0) :: t.set n x := rfl
    rw [he]
    exact cons_getD_set_perm t n x hn
  | x :: t, n + 1, m + 1, hi, hj => by
    have hn : n < t.length := by simpa using hi
    have hm : m < t.length := by simpa using hj
    have he : listSwap (x :: t) (n + 1) (m + 1) = x :: listSwap t n m := rfl
    rw [he]
    exact (listSwap_perm t n m hn hm).cons x

theorem shuffleAux_perm (rnd : Nat → Nat) :
    ∀ (i : Nat) (l : List Nat) (k : Nat), i < l.length →
      ((shuffleAux rnd i l k).1).Perm l
  | 0, l, k, _ => by
    unfold shuffleAux
    exact List.Perm.refl l
  | i + 1, l, k, h => by
    unfold shuffleAux
    have hswap : (listSwap l (i + 1) (rnd k % (i + 2))).Perm l :=
      listSwap_perm l (i + 1) (rnd k % (i + 2)) h
        (Nat.lt_of_lt_of_le (Nat.mod_lt _ (by omega)) h)
    have hlen : (listSwap l (i + 1) (rnd k % (i + 2))).length = l.length :=
      hswap.length_eq
    exact (shuffleAux_perm rnd i (listSwap l (i + 1) (rnd k % (i + 2))) (k + 1)
      (by omega)).trans hswap

theorem shuffle_perm (rnd : Nat → Nat) (l : List Nat) (k : Nat) :
    ((shuffle rnd l k).1).Perm l := by
  unfold shuffle
  cases hl : l with
  | nil =>
    unfold shuffleAux
    simp
  | cons x t =>
    have hlen : l.length - 1 < l.length := by rw [hl]; simp
    rw [← hl]
    exact shuffleAux_perm rnd (l.length - 1) l k hlen

/-! ## Soundness and completeness of the randomized candidate loop -/

theorem tryCandsR_some {f : Grid → Nat → Option Grid × Nat} {b : Grid}
    {r c size : Nat} :
    ∀ {cands : List Nat} {k : Nat} {sol : Grid} {k2 : Nat},
      tryCandsR f b r c size cands k = (some sol, k2) →
      ∃ n ∈ cands, isValidMove b r c n size = true ∧
        ∃ k0, f (setCell b r c n) k0 = (some sol, k2)
  | [], k, sol, k2, h => by simp [tryCandsR] at h
  | n :: ns, k, sol, k2, h => by
    simp only [tryCandsR] at h
    by_cases hv : isValidMove b r c n size
    · rw [if_pos hv] at h
      cases hf : f (setCell b r c n) k with
      | mk o k3 =>
        cases o with
        | some s =>
          rw [hf] at h
          cases h
          exact ⟨n, List.mem_cons_self n ns, hv, k, hf⟩
        | none =>
          rw [hf] at h
          obtain ⟨m, hm, h1, h2⟩ := tryCandsR_some h
          exact ⟨m, List.mem_cons_of_mem _ hm, h1, h2⟩
    · rw [if_neg hv] at h
      obtain ⟨m, hm, h1, h2⟩ := tryCandsR_some h
      exact ⟨m, List.mem_cons_of_mem _ hm, h1, h2⟩

theorem tryCandsR_isSome_of_mem {f : Grid → Nat → Option Grid × Nat}
    {b : Grid} {r c size v : Nat}
    (hval : isValidMove b r c v size = true)
    (hf : ∀ k0, ((f (setCell b r c v) k0).1).isSome = true) :
    ∀ {cands : List Nat}, v ∈ cands →
      ∀ (k : Nat), ((tryCandsR f b r c size cands k).1).isSome = true
  | [], hm, _ => absurd hm (by simp)
  | n :: ns, hm, k => by
    simp only [tryCandsR]
    by_cases hv : isValidMove b r c n size
    · rw [if_pos hv]
      cases hfk : f (setCell b r c n) k with
      | mk o k3 =>
        cases o with
        | some s => simp
        | none =>
          rcases List.mem_cons.mp hm with heq | hmem
          · subst heq
            have := hf k
            rw [hfk] at this
            simp at this
          · exact tryCandsR_isSome_of_mem hval hf hmem k3
    · rw [if_neg hv]
      rcases List.mem_cons.mp hm with heq | hmem
      · subst heq
        exact absurd hval hv
      · exact tryCandsR_isSome_of_mem hval hf hmem k

/-! ## Soundness and completeness of the randomized solver -/

/-- The value a completion puts at an empty cell is a legal move. -/
theorem completion_step_valid {b S : Grid} {size r c : Nat}
    (hs : size = 6 ∨ size = 9) (hr : r < size) (hc : c < size)
    (hS : Completion b S size) :
    isValidMove b r c (cell S r c) size = true := by
  have hrcmem := pair_mem_allPos hr hc
  have hv1 : 1 ≤ cell S r c :=
    Nat.one_le_iff_ne_zero.mpr (hS.2.2.1 (r, c) hrcmem)
  rw [isValidMove_eq_true_iff hs hr hc]
  intro q hq hne hpeer heq
  have hq0 : cell b q.1 q.2 ≠ 0 := by omega
  have hSq : cell S q.1 q.2 = cell S r c := by
    rw [hS.2.2.2.2 q hq hq0, heq]
  exact hS.2.2.2.1 (r, c) hrcmem q hq (fun h => hne h.symm) hpeer
    (show cell S r c ≠ 0 by omega) hSq

/-- A completion still completes the board extended with its own value. -/
theorem completion_step_extend {b S : Grid} {size r c : Nat}
    (hw : Wf b size) (hr : r < size) (hc : c < size)
    (hS : Completion b S size) :
    Completion (setCell b r c (cell S r c)) S size := by
  refine ⟨hS.1, hS.2.1, hS.2.2.1, hS.2.2.2.1, ?_⟩
  intro p hp hp0
  by_cases hpe : p = (r, c)
  · subst hpe
    rw [cell_setCell_self hw hr hc]
  · have hp2 : r ≠ p.1 ∨ c ≠ p.2 := by
      by_contra hcon
      push_neg at hcon
      exact hpe (Prod.ext hcon.1.symm hcon.2.symm)
    rw [cell_setCell_ne hp2] at hp0 ⊢
    exact hS.2.2.2.2 p hp hp0

theorem solveRandomAux_sound {rnd : Nat → Nat} {size : Nat}
    (hs : size = 6 ∨ size = 9) :
    ∀ fuel (b sol : Grid) (k k2 : Nat), Wf b size → InRange b size →
      NoConflicts b size →
      solveRandomAux rnd size fuel b k = (some sol, k2) →
      Wf sol size ∧ InRange sol size ∧ NoConflicts sol size ∧
        Complete sol size ∧ ExtendsB b sol size := by
  intro fuel
  induction fuel with
  | zero =>
    intro b sol k k2 _ _ _ h
    simp [solveRandomAux] at h
  | succ fuel ih =>
    intro b sol k k2 hw hir hnc hsol
    rw [solveRandomAux] at hsol
    cases hfe : findEmpty b size with
    | none =>
      rw [hfe] at hsol
      cases hsol
      refine ⟨hw, hir, hnc, ?_, fun p hp h0 => rfl⟩
      intro p hp
      exact (findEmpty_eq_none_iff.mp hfe) p hp
    | some rc =>
      obtain ⟨r, c⟩ := rc
      rw [hfe] at hsol
      obtain ⟨hr, hc, h0⟩ := findEmpty_some hfe
      have hsol2 : tryCandsR (solveRandomAux rnd size fuel) b r c size
          (shuffle rnd ((List.range size).map (· + 1)) k).1
          (shuffle rnd ((List.range size).map (· + 1)) k).2
          = (some sol, k2) := hsol
      obtain ⟨n, hmem, hvalid, k0, hrec⟩ := tryCandsR_some hsol2
      have hmem2 : n ∈ (List.range size).map (· + 1) :=
        (shuffle_perm rnd _ k).mem_iff.mp hmem
      have hn : 1 ≤ n ∧ n ≤ size := by
        simp only [List.mem_map, List.mem_range] at hmem2
        obtain ⟨m, hm, rfl⟩ := hmem2
        omega
      have hw2 : Wf (setCell b r c n) size := wf_setCell hw hr n
      have hir2 : InRange (setCell b r c n) size := inRange_setCell hir hn.2
      have hnc2 : NoConflicts (setCell b r c n) size :=
        noConflicts_setCell hs hr hc hvalid hnc hw
      obtain ⟨sw, si, snc, sc2, sext⟩ := ih _ _ _ _ hw2 hir2 hnc2 hrec
      refine ⟨sw, si, snc, sc2, ?_⟩
      intro p hp hp0
      have hpne : r ≠ p.1 ∨ c ≠ p.2 := by
        by_contra hcon
        push_neg at hcon
        rw [← hcon.1, ← hcon.2] at hp0
        exact hp0 h0
      have := sext p hp (by rw [cell_setCell_ne hpne]; exact hp0)
      rw [cell_setCell_ne hpne] at this
      exact this

theorem solveRandomAux_complete {rnd : Nat → Nat} {size : Nat}
    (hs : size = 6 ∨ size = 9) :
    ∀ fuel (b : Grid) (k : Nat), Wf b size → emptyCount b size < fuel →
      (∃ S, Completion b S size) →
      ((solveRandomAux rnd size fuel b k).1).isSome = true := by
  intro fuel
  induction fuel with
  | zero =>
    intro b k _ hcount _
    exact absurd hcount (Nat.not_lt_zero _)
  | succ fuel ih =>
    rintro b k hw hcount ⟨S, hS⟩
    rw [solveRandomAux]
    cases hfe : findEmpty b size with
    | none => simp
    | some rc =>
      obtain ⟨r, c⟩ := rc
      obtain ⟨hr, hc, h0⟩ := findEmpty_some hfe
      have hrcmem := pair_mem_allPos hr hc
      have hv1 : 1 ≤ cell S r c :=
        Nat.one_le_iff_ne_zero.mpr (hS.2.2.1 (r, c) hrcmem)
      have hv2 : cell S r c ≤ size := hS.2.1 (r, c) hrcmem
      have hvalid := completion_step_valid hs hr hc hS
      have hmem : cell S r c ∈ (shuffle rnd ((List.range size).map (· + 1)) k).1 := by
        refine (shuffle_perm rnd _ k).mem_iff.mpr ?_
        simp only [List.mem_map, List.mem_range]
        exact ⟨cell S r c - 1, by omega, by omega⟩
      have hcount2 : emptyCount (setCell b r c (cell S r c)) size < fuel := by
        have := emptyCount_setCell hw hr hc h0 (show cell S r c ≠ 0 by omega)
        omega
      have hf : ∀ k0, ((solveRandomAux rnd size fuel
          (setCell b r c (cell S r c)) k0).1).isSome = true :=
        fun k0 => ih _ k0 (wf_setCell hw hr _) hcount2
          ⟨S, completion_step_extend hw hr hc hS⟩
      exact tryCandsR_isSome_of_mem hvalid hf hmem _

/-! ## The removal loop of the generator -/

/-- Clearing a non-empty cell adds one empty cell. -/
theorem emptyCount_setCell_zero {b : Grid} {size r c : Nat} (hw : Wf b size)
    (hr : r < size) (hc : c < size) (hcell : cell b r c ≠ 0) :
    emptyCount b size + 1 = emptyCount (setCell b r c 0) size := by
  have hmem : (r, c) ∈ allPos size := pair_mem_allPos hr hc
  refine countP_succ_of_flip (allPos_nodup size) hmem
    (p := fun p => cell (setCell b r c 0) p.1 p.2 == 0)
    (q := fun p => cell b p.1 p.2 == 0) ?_ ?_ ?_
  · simp only [cell_setCell_self hw hr hc 0]
    simp
  · simpa using hcell
  · intro x _ hx
    have hne : r ≠ x.1 ∨ c ≠ x.2 := by
      by_contra hcon
      push_neg at hcon
      exact hx (Prod.ext hcon.1.symm hcon.2.symm)
    simp only [cell_setCell_ne hne]

theorem removeCells_some {rnd : Nat → Nat} {size : Nat} (hpos : 0 < size) :
    ∀ fuel (b : Grid) (remaining k : Nat) (b2 : Grid) (k2 : Nat),
      Wf b size →
      removeCells rnd size fuel b remaining k = some (b2, k2) →
      Wf b2 size ∧ emptyCount b2 size = emptyCount b size + remaining ∧
        (∀ p ∈ allPos size, cell b2 p.1 p.2 = 0 ∨
          cell b2 p.1 p.2 = cell b p.1 p.2) := by
  intro fuel
  induction fuel with
  | zero =>
    intro b remaining k b2 k2 hw h
    rw [removeCells] at h
    by_cases h0 : remaining = 0
    · rw [if_pos h0] at h
      cases h
      exact ⟨hw, by omega, fun p hp => Or.inr rfl⟩
    · rw [if_neg h0] at h
      cases h
  | succ fuel ih =>
    intro b remaining k b2 k2 hw h
    rw [removeCells] at h
    by_cases h0 : remaining = 0
    · rw [if_pos h0] at h
      cases h
      exact ⟨hw, by omega, fun p hp => Or.inr rfl⟩
    · rw [if_neg h0] at h
      have hrrlt : rnd k % size < size := Nat.mod_lt _ hpos
      have hcclt : rnd (k + 1) % size < size := Nat.mod_lt _ hpos
      by_cases hcell : cell b (rnd k % size) (rnd (k + 1) % size) ≠ 0
      · rw [if_pos hcell] at h
        obtain ⟨hw2, hcount, hsub⟩ := ih _ _ _ _ _ (wf_setCell hw hrrlt 0) h
        refine ⟨hw2, ?_, ?_⟩
        · have hinc := emptyCount_setCell_zero hw hrrlt hcclt hcell
          omega
        · intro p hp
          rcases hsub p hp with hz | he
          · exact Or.inl hz
          · by_cases hpe : rnd k % size = p.1 ∧ rnd (k + 1) % size = p.2
            · rw [he]
              refine Or.inl ?_
              rw [← hpe.1, ← hpe.2]
              exact cell_setCell_self hw hrrlt hcclt 0
            · have hne : rnd k % size ≠ p.1 ∨ rnd (k + 1) % size ≠ p.2 := by
                by_contra hcon
                push_neg at hcon
                exact hpe ⟨hcon.1, hcon.2⟩
              rw [he, cell_setCell_ne hne]
              exact Or.inr rfl
      · rw [if_neg hcell] at h
        obtain ⟨hw2, hcount, hsub⟩ := ih _ _ _ _ _ hw h
        exact ⟨hw2, by omega, hsub⟩

/-! ## The empty grid and cell-count bookkeeping -/

theorem wf_createEmptyGrid (size : Nat) : Wf (createEmptyGrid size) size := by
  constructor
  · simp [createEmptyGrid]
  · intro row hrow
    rw [createEmptyGrid] at hrow
    rw [List.eq_of_mem_replicate hrow]
    simp

theorem cell_createEmptyGrid (size r c : Nat) :
    cell (createEmptyGrid size) r c = 0 := by
  unfold cell createEmptyGrid
  rcases Nat.lt_or_ge r size with h | h
  · have hr : r < (List.replicate size (List.replicate size (0 : Nat))).length := by
      simpa using h
    rw [List.getD_eq_getElem _ _ hr, List.getElem_replicate]
    rcases Nat.lt_or_ge c size with h2 | h2
    · have hc : c < (List.replicate size (0 : Nat)).length := by simpa using h2
      rw [List.getD_eq_getElem _ _ hc, List.getElem_replicate]
    · exact List.getD_eq_default _ _ (by simpa using h2)
  · have hr : (List.replicate size (List.replicate size (0 : Nat))).length ≤ r := by
      simpa using h
    rw [List.getD_eq_default _ _ hr]
    simp

theorem inRange_createEmptyGrid (size : Nat) :
    InRange (createEmptyGrid size) size := by
  intro p hp
  rw [cell_createEmptyGrid]
  exact Nat.zero_le _

theorem noConflicts_createEmptyGrid (size : Nat) :
    NoConflicts (createEmptyGrid size) size := by
  intro p hp q hq hne hpeer hp0
  exact absurd (cell_createEmptyGrid size p.1 p.2) hp0

theorem countP_add_countP_not {α : Type} (l : List α) (p q : α → Bool)
    (h : ∀ a ∈ l, q a = !(p a)) : l.countP p + l.countP q = l.length := by
  induction l with
  | nil => simp
  | cons x xs ih =>
    rw [List.countP_cons, List.countP_cons, h x (List.mem_cons_self x xs)]
    have hr := ih (fun a ha => h a (List.mem_cons_of_mem _ ha))
    cases hp : p x <;> simp [hp] <;> omega

theorem clueCount_add_emptyCount (b : Grid) (size : Nat) :
    clueCount b size + emptyCount b size = size * size := by
  have hlen : (allPos size).length = size * size := by
    show ((List.range size) ×ˢ (List.range size)).length = size * size
    rw [List.length_product, List.length_range]
  unfold clueCount emptyCount
  rw [← hlen]
  exact countP_add_countP_not _ _ _ (fun a _ => (Bool.not_not _).symm)

theorem emptyCount_eq_zero_of_complete {b : Grid} {size : Nat}
    (h : Complete b size) : emptyCount b size = 0 :=
  List.countP_eq_zero.mpr (fun p hp => by simpa using h p hp)

/-! ## Subboards of a conflict-free board -/

theorem noConflicts_of_subboard {b b2 : Grid} {size : Nat}
    (hsub : ∀ p ∈ allPos size, cell b2 p.1 p.2 = 0 ∨
      cell b2 p.1 p.2 = cell b p.1 p.2)
    (hnc : NoConflicts b size) : NoConflicts b2 size := by
  intro p hp q hq hne hpeer hp0
  rcases hsub p hp with h | hpe
  · exact absurd h hp0
  · rcases hsub q hq with h | hqe
    · rw [h]
      exact fun hh => hp0 hh.symm
    · rw [hqe, hpe]
      rw [hpe] at hp0
      exact hnc p hp q hq hne hpeer hp0

theorem inRange_of_subboard {b b2 : Grid} {size : Nat}
    (hsub : ∀ p ∈ allPos size, cell b2 p.1 p.2 = 0 ∨
      cell b2 p.1 p.2 = cell b p.1 p.2)
    (hir : InRange b size) : InRange b2 size := by
  intro p hp
  rcases hsub p hp with h | h
  · rw [h]
    exact Nat.zero_le _
  · rw [h]
    exact hir p hp

/-! ## Claim C9: the generator falls back to the empty board -/

/-- C9: `generateSudoku` is the composition of the randomized solve of the
empty board with `generateFromSolved`, and when the solve result is null
`generateFromSolved` returns the empty size-by-size board — no retry, no
error. -/
theorem claim9_generate_fallback :
    (∀ (size : Nat) (difficulty : Difficulty) (rnd : Nat → Nat)
        (k fuel : Nat),
      generateFromSolved size difficulty none rnd k fuel
        = some (createEmptyGrid size)) ∧
    (∀ (size : Nat) (difficulty : Difficulty) (rnd : Nat → Nat) (fuel : Nat),
      generateSudoku size difficulty rnd fuel
        = generateFromSolved size difficulty
            (solveSudokuRandom rnd (createEmptyGrid size) size 0).1 rnd
            (solveSudokuRandom rnd (createEmptyGrid size) size 0).2 fuel) :=
  ⟨fun _ _ _ _ _ => rfl, fun _ _ _ _ => rfl⟩

/-! ## Claim C5: the generated board has exactly the table clue count -/

set_option maxRecDepth 10000 in
/-- C5: whenever `generateSudoku size difficulty` terminates (any outcome
of the random draws, fuel arbitrary), the returned board has exactly the
clue-table number of non-zero cells — 43/35/27 for 9×9 Easy/Medium/Hard
and 24/18/12 for 6×6.  This includes proving that the randomized solve of
the empty board never fails, so the empty-board fallback (0 clues) is
unreachable. -/
theorem claim5_generate_clue_count {size : Nat} {difficulty : Difficulty}
    {rnd : Nat → Nat} {fuel : Nat} {board : Grid}
    (hs : size = 6 ∨ size = 9)
    (hgen : generateSudoku size difficulty rnd fuel = some board) :
    clueCount board size = cluesToKeep size difficulty ∧
    cluesToKeep 9 Difficulty.Easy = 43 ∧ cluesToKeep 9 Difficulty.Medium = 35 ∧
    cluesToKeep 9 Difficulty.Hard = 27 ∧ cluesToKeep 6 Difficulty.Easy = 24 ∧
    cluesToKeep 6 Difficulty.Medium = 18 ∧
    cluesToKeep 6 Difficulty.Hard = 12 := by
  refine ⟨?_, rfl, rfl, rfl, rfl, rfl, rfl⟩
  have hpos : 0 < size := by rcases hs with rfl | rfl <;> omega
  have hwempty := wf_createEmptyGrid size
  have hex : ∃ S, Completion (createEmptyGrid size) S size := by
    rcases hs with rfl | rfl
    · exact ⟨solvedGrid6, by decide⟩
    · exact ⟨solvedGrid9, by decide⟩
  have hsome : ((solveSudokuRandom rnd (createEmptyGrid size) size 0).1).isSome
      = true :=
    solveRandomAux_complete hs (size * size + 1) (createEmptyGrid size) 0
      hwempty (by have := emptyCount_le (createEmptyGrid size) size; omega) hex
  have hgen2 : generateFromSolved size difficulty
      (solveSudokuRandom rnd (createEmptyGrid size) size 0).1 rnd
      (solveSudokuRandom rnd (createEmptyGrid size) size 0).2 fuel
      = some board := hgen
  cases hsv : solveSudokuRandom rnd (createEmptyGrid size) size 0 with
  | mk o kk =>
    simp only [hsv] at hgen2 hsome
    cases o with
    | none => simp at hsome
    | some solved =>
      obtain ⟨sw, si, snc, scomp, sext⟩ := solveRandomAux_sound hs
        (size * size + 1) (createEmptyGrid size) solved 0 kk hwempty
        (inRange_createEmptyGrid size) (noConflicts_createEmptyGrid size) hsv
      have hgen3 : (removeCells rnd size fuel solved
          (size * size - cluesToKeep size difficulty) kk).map (fun g => g.1)
          = some board := hgen2
      rw [Option.map_eq_some'] at hgen3
      obtain ⟨⟨b2, k2⟩, hrem, hb⟩ := hgen3
      obtain ⟨hw2, hcount, hsub⟩ := removeCells_some hpos fuel solved
        (size * size - cluesToKeep size difficulty) kk b2 k2 sw hrem
      have hzero := emptyCount_eq_zero_of_complete scomp
      have hclues : cluesToKeep size difficulty ≤ size * size := by
        rcases hs with rfl | rfl <;> cases difficulty <;> decide
      have hsum := clueCount_add_emptyCount b2 size
      have hbb : b2 = board := hb
      rw [← hbb]
      omega

/-! ## Claim C8: the generated board is conflict-free -/

/-- C8: whatever the outcome of the random draws, a board returned by
`generateSudoku` is well-formed, every non-zero cell is in [1,size], and
the conflict scan finds nothing (its filled cells are a subset of a valid
solved board, or the board is the all-empty fallback). -/
theorem claim8_generate_no_conflicts {size : Nat} {difficulty : Difficulty}
    {rnd : Nat → Nat} {fuel : Nat} {board : Grid}
    (hs : size = 6 ∨ size = 9)
    (hgen : generateSudoku size difficulty rnd fuel = some board) :
    Wf board size ∧
    (∀ p ∈ allPos size, cell board p.1 p.2 ≠ 0 →
      1 ≤ cell board p.1 p.2 ∧ cell board p.1 p.2 ≤ size) ∧
    validateBoard board size = [] := by
  have hpos : 0 < size := by rcases hs with rfl | rfl <;> omega
  have hwempty := wf_createEmptyGrid size
  have hgen2 : generateFromSolved size difficulty
      (solveSudokuRandom rnd (createEmptyGrid size) size 0).1 rnd
      (solveSudokuRandom rnd (createEmptyGrid size) size 0).2 fuel
      = some board := hgen
  cases hsv : solveSudokuRandom rnd (createEmptyGrid size) size 0 with
  | mk o kk =>
    simp only [hsv] at hgen2
    cases o with
    | none =>
      have hbb : createEmptyGrid size = board := by
        have : some (createEmptyGrid size) = some board := hgen2
        cases this
        rfl
      rw [← hbb]
      refine ⟨hwempty, ?_, (validateBoard_eq_nil_iff hs).mpr
        (noConflicts_createEmptyGrid size)⟩
      intro p hp h0
      exact absurd (cell_createEmptyGrid size p.1 p.2) h0
    | some solved =>
      obtain ⟨sw, si, snc, scomp, sext⟩ := solveRandomAux_sound hs
        (size * size + 1) (createEmptyGrid size) solved 0 kk hwempty
        (inRange_createEmptyGrid size) (noConflicts_createEmptyGrid size) hsv
      have hgen3 : (removeCells rnd size fuel solved
          (size * size - cluesToKeep size difficulty) kk).map (fun g => g.1)
          = some board := hgen2
      rw [Option.map_eq_some'] at hgen3
      obtain ⟨⟨b2, k2⟩, hrem, hb⟩ := hgen3
      obtain ⟨hw2, hcount, hsub⟩ := removeCells_some hpos fuel solved
        (size * size - cluesToKeep size difficulty) kk b2 k2 sw hrem
      have hbb : b2 = board := hb
      subst hbb
      refine ⟨hw2, ?_, (validateBoard_eq_nil_iff hs).mpr
        (noConflicts_of_subboard hsub snc)⟩
      intro p hp h0
      have := inRange_of_subboard hsub si p hp
      omega

/-- C5, witness: a concrete terminating run of `generateSudoku 6 Hard`
keeps exactly 12 clues. -/
theorem claim5_witness :
    clueCount [[0,0,0,0,0,0],[0,0,0,0,0,0],[0,0,0,0,0,0],[0,0,0,0,0,0],
      [6,4,2,1,5,3],[1,5,3,6,4,2]] 6 = 12 := by
  have h := claim5_generate_clue_count (Or.inl rfl)
    (show generateSudoku 6 Difficulty.Hard genRnd6 24
      = some [[0,0,0,0,0,0],[0,0,0,0,0,0],[0,0,0,0,0,0],[0,0,0,0,0,0],
        [6,4,2,1,5,3],[1,5,3,6,4,2]] by decide)
  exact h.1.trans h.2.2.2.2.2.2

/-- C8, witness: a concrete terminating run of `generateSudoku 6 Easy`
yields a board with no conflicts. -/
theorem claim8_witness :
    validateBoard [[0,0,0,0,0,0],[0,0,0,0,0,0],[3,2,5,4,1,6],[4,1,6,3,2,5],
      [6,4,2,1,5,3],[1,5,3,6,4,2]] 6 = [] :=
  (claim8_generate_no_conflicts (Or.inl rfl)
    (show generateSudoku 6 Difficulty.Easy genRnd6 12
      = some [[0,0,0,0,0,0],[0,0,0,0,0,0],[3,2,5,4,1,6],[4,1,6,3,2,5],
        [6,4,2,1,5,3],[1,5,3,6,4,2]] by decide)).2.2

/-! ## Heap model: basic lemmas -/

theorem set_getD_self {α : Type} :
    ∀ (l : List α) (i : Nat) (d : α), l.set i (l.getD i d) = l
  | [], _, _ => rfl
  | _ :: _, 0, _ => rfl
  | x :: t, i + 1, d => by
    show x :: t.set i (t.getD i d) = x :: t
    rw [set_getD_self t i d]

theorem set_eq_of_getD {α : Type} {l : List α} {i : Nat} {d v : α}
    (h : l.getD i d = v) : l.set i v = l := by
  rw [← h, set_getD_self]

theorem hwrite_length (H : Heap) (a : Nat) (row : List Nat) :
    (hwrite H a row).rows.length = H.rows.length := List.length_set _ _ _

theorem hread_hwrite_self {H : Heap} {a : Nat} (h : a < H.rows.length)
    (row : List Nat) : hread (hwrite H a row) a = row :=
  getD_set_self h row []

theorem hread_hwrite_ne {H : Heap} {a a2 : Nat} (h : a ≠ a2)
    (row : List Nat) : hread (hwrite H a row) a2 = hread H a2 :=
  getD_set_ne h row []

theorem writeCellH_length (H : Heap) (g : List Nat) (r c v : Nat) :
    (writeCellH H g r c v).rows.length = H.rows.length := hwrite_length _ _ _

theorem hread_writeCellH_ne {H : Heap} {g : List Nat} {r c v a : Nat}
    (h : a ≠ g.getD r 0) : hread (writeCellH H g r c v) a = hread H a :=
  hread_hwrite_ne (fun he => h he.symm) _

theorem getD_mem_of_lt {l : List Nat} {n : Nat} (h : n < l.length) :
    l.getD n 0 ∈ l := by
  rw [List.getD_eq_getElem _ _ h]
  exact List.getElem_mem h

theorem getD_map_list {g : List Nat} {f : Nat → List Nat} {r : Nat}
    (h : r < g.length) : (g.map f).getD r [] = f (g.getD r 0) := by
  have h2 : r < (g.map f).length := by simpa using h
  rw [List.getD_eq_getElem _ _ h2, List.getElem_map,
    List.getD_eq_getElem _ _ h]

/-- Setting position `r` of a mapped list, when the mapped function
changes only at the element at position `r` (which is not repeated). -/
theorem map_set_of_nodup :
    ∀ (g : List Nat) (r : Nat) (f f2 : Nat → List Nat), g.Nodup →
      r < g.length → (∀ x ∈ g, x ≠ g.getD r 0 → f2 x = f x) →
      g.map f2 = (g.map f).set r (f2 (g.getD r 0))
  | [], r, f, f2, _, hr, _ => absurd hr (by simp)
  | x :: t, 0, f, f2, hnd, _, hother => by
    have hxt : x ∉ t := (List.nodup_cons.mp hnd).1
    show f2 x :: t.map f2 = f2 x :: t.map f
    have hgd : (x :: t).getD 0 0 = x := rfl
    have ht : t.map f2 = t.map f := List.map_congr_left (fun y hy =>
      hother y (List.mem_cons_of_mem _ hy)
        (fun he => hxt ((show y = x from he.trans hgd) ▸ hy)))
    rw [ht]
  | x :: t, r + 1, f, f2, hnd, hr, hother => by
    have hrt : r < t.length := by simpa using hr
    have hxt : x ∉ t := (List.nodup_cons.mp hnd).1
    have hxg : x ≠ t.getD r 0 := fun he => hxt (he ▸ getD_mem_of_lt hrt)
    show f2 x :: t.map f2 = f x :: (t.map f).set r (f2 (t.getD r 0))
    rw [hother x (List.mem_cons_self x t) hxg,
      map_set_of_nodup t r f f2 (List.nodup_cons.mp hnd).2 hrt
        (fun y hy hne => hother y (List.mem_cons_of_mem _ hy) hne)]

/-- A heap write through the grid is a `setCell` on the denoted board. -/
theorem readGrid_writeCellH {H : Heap} {g : List Nat} {r c v : Nat}
    (hnd : g.Nodup) (hr : r < g.length)
    (hval : ∀ x ∈ g, x < H.rows.length) :
    readGrid (writeCellH H g r c v) g = setCell (readGrid H g) r c v := by
  have halt : g.getD r 0 < H.rows.length := hval _ (getD_mem_of_lt hr)
  unfold readGrid setCell
  rw [getD_map_list hr]
  have hw : hread (writeCellH H g r c v) (g.getD r 0)
      = (hread H (g.getD r 0)).set c v := hread_hwrite_self halt _
  rw [← hw]
  exact map_set_of_nodup g r (hread H) (hread (writeCellH H g r c v)) hnd hr
    (fun x _ hne => hread_writeCellH_ne hne)

/-- Placing a value at an empty cell and resetting it restores the board. -/
theorem setCell_setCell_zero {b : Grid} {r c n : Nat} (h0 : cell b r c = 0) :
    setCell (setCell b r c n) r c 0 = b := by
  unfold setCell
  rcases Nat.lt_or_ge r b.length with hr | hr
  · rw [getD_set_self hr, List.set_set, List.set_set]
    have hrow : ((b.getD r []).set c 0) = b.getD r [] :=
      set_eq_of_getD (show (b.getD r []).getD c 0 = 0 from h0)
    rw [hrow, set_getD_self]
  · rw [List.set_eq_of_length_le hr, List.set_eq_of_length_le hr]

theorem hread_append_lt {H : Heap} {row : List Nat} {a : Nat}
    (h : a < H.rows.length) :
    hread ⟨H.rows ++ [row]⟩ a = hread H a := by
  unfold hread
  rw [List.getD_eq_getElem?_getD, List.getElem?_append, if_pos h,
    ← List.getD_eq_getElem?_getD]

theorem hread_append_self {H : Heap} {row : List Nat} :
    hread ⟨H.rows ++ [row]⟩ H.rows.length = row := by
  unfold hread
  rw [List.getD_eq_getElem?_getD,
    List.getElem?_append_right (Nat.le_refl _)]
  simp

/-- Full specification of the deep copy: the heap only grows (old reads
unchanged), the new addresses are fresh, distinct, and as many as the old,
and the copy denotes the same board. -/
theorem deepCopy_spec :
    ∀ (g : List Nat) (H : Heap), (∀ x ∈ g, x < H.rows.length) →
      ((deepCopy H g).1).rows.length = H.rows.length + g.length ∧
      (∀ a, a < H.rows.length → hread (deepCopy H g).1 a = hread H a) ∧
      (∀ x ∈ (deepCopy H g).2,
        H.rows.length ≤ x ∧ x < H.rows.length + g.length) ∧
      ((deepCopy H g).2).Nodup ∧
      ((deepCopy H g).2).length = g.length ∧
      readGrid (deepCopy H g).1 (deepCopy H g).2 = readGrid H g
  | [], H, _ => by
    refine ⟨by simp [deepCopy], fun a _ => rfl, by simp [deepCopy],
      by simp [deepCopy], by simp [deepCopy], rfl⟩
  | a :: as, H, hval => by
    have hlt : a < H.rows.length := hval a (List.mem_cons_self a as)
    have hval2 : ∀ x ∈ as, x < (Heap.mk (H.rows ++ [hread H a])).rows.length := by
      intro x hx
      have := hval x (List.mem_cons_of_mem _ hx)
      simp only [List.length_append, List.length_cons]
      omega
    obtain ⟨ih1, ih2, ih3, ih4, ih5, ih6⟩ :=
      deepCopy_spec as ⟨H.rows ++ [hread H a]⟩ hval2
    have hlen2 : (Heap.mk (H.rows ++ [hread H a])).rows.length
        = H.rows.length + 1 := by simp
    have hde : deepCopy H (a :: as)
        = ((deepCopy ⟨H.rows ++ [hread H a]⟩ as).1,
           H.rows.length :: (deepCopy ⟨H.rows ++ [hread H a]⟩ as).2) := rfl
    rw [hde]
    refine ⟨?_, ?_, ?_, ?_, ?_, ?_⟩
    · simp only [List.length_cons]
      rw [ih1, hlen2]
      omega
    · intro a2 ha2
      rw [ih2 a2 (by omega), hread_append_lt ha2]
    · intro x hx
      rcases List.mem_cons.mp hx with rfl | hmem
      · simp only [List.length_cons]
        omega
      · have := ih3 x hmem
        rw [hlen2] at this
        simp only [List.length_cons]
        omega
    · rw [List.nodup_cons]
      refine ⟨?_, ih4⟩
      intro hmem
      have := ih3 _ hmem
      rw [hlen2] at this
      omega
    · simp only [List.length_cons, ih5]
    · show hread (deepCopy ⟨H.rows ++ [hread H a]⟩ as).1 H.rows.length
          :: readGrid (deepCopy ⟨H.rows ++ [hread H a]⟩ as).1
               (deepCopy ⟨H.rows ++ [hread H a]⟩ as).2
        = hread H a :: readGrid H as
      rw [ih2 H.rows.length (by omega), hread_append_self, ih6]
      unfold readGrid
      rw [List.map_congr_left (fun x hx => hread_append_lt
        (hval x (List.mem_cons_of_mem _ hx)))]

/-! ## Simulation: the heap solver computes the pure solver -/

theorem tryCandsH_sim {size : Nat} {g : List Nat}
    {f : Heap → Heap × Bool} {fp : Grid → Option Grid} {r c : Nat}
    (hnd : g.Nodup) (hglen : g.length = size) (hr : r < size)
    (hf : ∀ H2 : Heap, (∀ x ∈ g, x < H2.rows.length) →
      ((f H2).1.rows.length = H2.rows.length) ∧
      (∀ a, a ∉ g → hread (f H2).1 a = hread H2 a) ∧
      ((f H2).2 = true →
        fp (readGrid H2 g) = some (readGrid (f H2).1 g)) ∧
      ((f H2).2 = false → fp (readGrid H2 g) = none ∧
        readGrid (f H2).1 g = readGrid H2 g)) :
    ∀ (cands : List Nat) (H : Heap), (∀ x ∈ g, x < H.rows.length) →
      cell (readGrid H g) r c = 0 →
      ((tryCandsH size g f r c cands H).1.rows.length = H.rows.length) ∧
      (∀ a, a ∉ g →
        hread (tryCandsH size g f r c cands H).1 a = hread H a) ∧
      ((tryCandsH size g f r c cands H).2 = true →
        tryCands fp (readGrid H g) r c size cands
          = some (readGrid (tryCandsH size g f r c cands H).1 g)) ∧
      ((tryCandsH size g f r c cands H).2 = false →
        tryCands fp (readGrid H g) r c size cands = none ∧
        readGrid (tryCandsH size g f r c cands H).1 g = readGrid H g)
  | [], H, hval, h0 => by
    refine ⟨rfl, fun a _ => rfl, ?_, fun _ => ⟨rfl, rfl⟩⟩
    intro h
    cases h
  | n :: ns, H, hval, h0 => by
    have hrg : r < g.length := by omega
    by_cases hv : isValidMove (readGrid H g) r c n size
    · have hde : tryCandsH size g f r c (n :: ns) H
          = match f (writeCellH H g r c n) with
            | (h2, true) => (h2, true)
            | (h2, false) =>
              tryCandsH size g f r c ns (writeCellH h2 g r c 0) := by
        simp only [tryCandsH, if_pos hv]
      have hpde : tryCands fp (readGrid H g) r c size (n :: ns)
          = match fp (setCell (readGrid H g) r c n) with
            | some sol => some sol
            | none => tryCands fp (readGrid H g) r c size ns := by
        simp only [tryCands, if_pos hv]
      have hval1 : ∀ x ∈ g, x < (writeCellH H g r c n).rows.length := by
        intro x hx
        rw [writeCellH_length]
        exact hval x hx
      have hrw1 : readGrid (writeCellH H g r c n) g
          = setCell (readGrid H g) r c n := readGrid_writeCellH hnd hrg hval
      obtain ⟨flen, fframe, ftrue, ffalse⟩ := hf (writeCellH H g r c n) hval1
      cases hfres : f (writeCellH H g r c n) with
      | mk H2 flag =>
        simp only [hfres] at flen fframe ftrue ffalse
        cases flag with
        | true =>
          have hres : tryCandsH size g f r c (n :: ns) H = (H2, true) := by
            rw [hde, hfres]
          rw [hres]
          refine ⟨?_, ?_, ?_, ?_⟩
          · show H2.rows.length = H.rows.length
            rw [flen, writeCellH_length]
          · intro a ha
            show hread H2 a = hread H a
            have hag : a ≠ g.getD r 0 := fun he =>
              ha (by rw [he]; exact getD_mem_of_lt hrg)
            rw [fframe a ha, hread_writeCellH_ne hag]
          · intro _
            show tryCands fp (readGrid H g) r c size (n :: ns)
              = some (readGrid H2 g)
            have h5 := ftrue rfl
            rw [hrw1] at h5
            rw [hpde, h5]
          · intro hfl
            exact Bool.noConfusion hfl
        | false =>
          obtain ⟨hnone, hrestore⟩ := ffalse rfl
          rw [hrw1] at hnone hrestore
          have hres : tryCandsH size g f r c (n :: ns) H
              = tryCandsH size g f r c ns (writeCellH H2 g r c 0) := by
            rw [hde, hfres]
          have hval2 : ∀ x ∈ g, x < H2.rows.length := by
            intro x hx
            rw [flen, writeCellH_length]
            exact hval x hx
          have hrw3 : readGrid (writeCellH H2 g r c 0) g = readGrid H g := by
            rw [readGrid_writeCellH hnd hrg hval2, hrestore,
              setCell_setCell_zero h0]
          have hval3 : ∀ x ∈ g, x < (writeCellH H2 g r c 0).rows.length := by
            intro x hx
            rw [writeCellH_length]
            exact hval2 x hx
          have h03 : cell (readGrid (writeCellH H2 g r c 0) g) r c = 0 := by
            rw [hrw3]
            exact h0
          obtain ⟨ih1, ih2, ih3, ih4⟩ := tryCandsH_sim hnd hglen hr hf ns
            (writeCellH H2 g r c 0) hval3 h03
          rw [hres]
          refine ⟨?_, ?_, ?_, ?_⟩
          · rw [ih1, writeCellH_length, flen, writeCellH_length]
          · intro a ha
            have hag : a ≠ g.getD r 0 := fun he =>
              ha (by rw [he]; exact getD_mem_of_lt hrg)
            rw [ih2 a ha, hread_writeCellH_ne hag, fframe a ha,
              hread_writeCellH_ne hag]
          · intro htrue
            have h6 := ih3 htrue
            rw [hrw3] at h6
            rw [hpde, hnone]
            exact h6
          · intro hfl
            obtain ⟨h7, h8⟩ := ih4 hfl
            rw [hrw3] at h7 h8
            refine ⟨?_, h8⟩
            rw [hpde, hnone]
            exact h7
    · have hde : tryCandsH size g f r c (n :: ns) H
          = tryCandsH size g f r c ns H := by
        simp only [tryCandsH, if_neg hv]
      have hpde : tryCands fp (readGrid H g) r c size (n :: ns)
          = tryCands fp (readGrid H g) r c size ns := by
        simp only [tryCands, if_neg hv]
      obtain ⟨ih1, ih2, ih3, ih4⟩ := tryCandsH_sim hnd hglen hr hf ns H hval h0
      rw [hde, hpde]
      exact ⟨ih1, ih2, ih3, ih4⟩

theorem solveH_sim {size : Nat} {g : List Nat} (hnd : g.Nodup)
    (hglen : g.length = size) :
    ∀ (fuel : Nat) (H : Heap), (∀ x ∈ g, x < H.rows.length) →
      ((solveH size g fuel H).1.rows.length = H.rows.length) ∧
      (∀ a, a ∉ g → hread (solveH size g fuel H).1 a = hread H a) ∧
      ((solveH size g fuel H).2 = true →
        solveAux size fuel (readGrid H g)
          = some (readGrid (solveH size g fuel H).1 g)) ∧
      ((solveH size g fuel H).2 = false →
        solveAux size fuel (readGrid H g) = none ∧
        readGrid (solveH size g fuel H).1 g = readGrid H g)
  | 0, H, hval => by
    refine ⟨rfl, fun a _ => rfl, ?_, fun _ => ⟨rfl, rfl⟩⟩
    intro h
    cases h
  | fuel + 1, H, hval => by
    cases hfe : findEmpty (readGrid H g) size with
    | none =>
      have hres : solveH size g (fuel + 1) H = (H, true) := by
        rw [solveH, hfe]
      have hpres : solveAux size (fuel + 1) (readGrid H g)
          = some (readGrid H g) := by
        rw [solveAux, hfe]
      rw [hres]
      refine ⟨rfl, fun a _ => rfl, fun _ => by rw [hpres], ?_⟩
      intro h
      cases h
    | some rc =>
      obtain ⟨r, c⟩ := rc
      obtain ⟨hr, hc, h0⟩ := findEmpty_some hfe
      have hres : solveH size g (fuel + 1) H
          = tryCandsH size g (solveH size g fuel) r c
              ((List.range size).map (· + 1)) H := by
        rw [solveH, hfe]
      have hpres : solveAux size (fuel + 1) (readGrid H g)
          = tryCands (solveAux size fuel) (readGrid H g) r c size
              ((List.range size).map (· + 1)) := by
        rw [solveAux, hfe]
      obtain ⟨ih1, ih2, ih3, ih4⟩ := tryCandsH_sim hnd hglen hr
        (fun H2 hval2 => solveH_sim hnd hglen fuel H2 hval2)
        ((List.range size).map (· + 1)) H hval h0
      rw [hres, hpres]
      exact ⟨ih1, ih2, ih3, ih4⟩

/-- The heap-level solver returns exactly what the pure `solveSudoku`
computes on the denoted board. -/
theorem solveSudokuHBoard_eq (H : Heap) (g : List Nat) (size : Nat)
    (hval : ∀ x ∈ g, x < H.rows.length) (hglen : g.length = size) :
    solveSudokuHBoard H g size = solveSudoku (readGrid H g) size := by
  obtain ⟨dc1, dc2, dc3, dc4, dc5, dc6⟩ := deepCopy_spec g H hval
  have hval2 : ∀ x ∈ (deepCopy H g).2, x < (deepCopy H g).1.rows.length := by
    intro x hx
    have := dc3 x hx
    omega
  have hglen2 : (deepCopy H g).2.length = size := by rw [dc5, hglen]
  obtain ⟨s1, s2, s3, s4⟩ := solveH_sim dc4 hglen2 (size * size + 1)
    (deepCopy H g).1 hval2
  cases hfl : (solveH size (deepCopy H g).2 (size * size + 1)
      (deepCopy H g).1).2 with
  | true =>
    have hbb : solveSudokuHBoard H g size
        = some (readGrid
            (solveH size (deepCopy H g).2 (size * size + 1) (deepCopy H g).1).1
            (deepCopy H g).2) := by
      simp only [solveSudokuHBoard, solveSudokuH, hfl]
      rfl
    have h3 := s3 hfl
    rw [dc6] at h3
    rw [hbb]
    unfold solveSudoku
    rw [h3]
  | false =>
    have hbb : solveSudokuHBoard H g size = none := by
      simp only [solveSudokuHBoard, solveSudokuH, hfl]
      rfl
    have h4 := (s4 hfl).1
    rw [dc6] at h4
    rw [hbb]
    unfold solveSudoku
    rw [h4]

/-! ## Claim C6: `solveSudoku` is deterministic -/

/-- C6: the result of the heap-level solver is a function of the denoted
board values alone — it refines the pure function `solveSudoku` — so two
calls on the same board values (whatever the heap layout, address choice
or allocation history) return identical results, and repeated calls on
the same input are bit-identical.  There is no randomness and no hidden
state in the deterministic solver (its embedding takes no random stream,
unlike `solveSudokuRandom`). -/
theorem claim6_solveSudoku_deterministic {size : Nat} (H1 H2 : Heap)
    (g1 g2 : List Nat)
    (hv1 : ∀ x ∈ g1, x < H1.rows.length)
    (hv2 : ∀ x ∈ g2, x < H2.rows.length)
    (hl1 : g1.length = size) (hl2 : g2.length = size)
    (heq : readGrid H1 g1 = readGrid H2 g2) :
    solveSudokuHBoard H1 g1 size = solveSudokuHBoard H2 g2 size ∧
    solveSudokuHBoard H1 g1 size = solveSudoku (readGrid H1 g1) size := by
  have e1 := solveSudokuHBoard_eq H1 g1 size hv1 hl1
  have e2 := solveSudokuHBoard_eq H2 g2 size hv2 hl2
  refine ⟨?_, e1⟩
  rw [e1, e2, heq]

/-- C6, witness: two calls from different heaps (different padding rows
and addresses) holding the same 6×6 board values give identical results. -/
theorem claim6_witness :
    solveSudokuHBoard
        ⟨[[9, 9], [0,2,3,4,5,6], [4,5,6,1,2,3], [2,1,4,3,6,5],
          [3,6,5,2,1,4], [5,3,1,6,4,2], [6,4,2,5,3,1]]⟩
        [1, 2, 3, 4, 5, 6] 6
      = solveSudokuHBoard
        ⟨[[0,2,3,4,5,6], [4,5,6,1,2,3], [2,1,4,3,6,5],
          [3,6,5,2,1,4], [5,3,1,6,4,2], [6,4,2,5,3,1], [7]]⟩
        [0, 1, 2, 3, 4, 5] 6 :=
  (claim6_solveSudoku_deterministic _ _ _ _
    (by decide) (by decide) (by decide) (by decide) (by decide)).1

/-! ## Claim C7: `solveSudoku` never mutates its argument -/

/-- C7: in the heap model the solver deep-copies the board of the caller
and mutates only the fresh copy: after `solveSudokuH` (whether it returns
a board or none) every pre-existing heap row — in particular every row of
the board of the caller — reads exactly as before, so the denoted input
board is unchanged cell for cell. -/
theorem claim7_no_mutation {size : Nat} (H : Heap) (g : List Nat)
    (hval : ∀ x ∈ g, x < H.rows.length) (hglen : g.length = size) :
    (∀ a, a < H.rows.length →
      hread (solveSudokuH H g size).1 a = hread H a) ∧
    readGrid (solveSudokuH H g size).1 g = readGrid H g ∧
    (∀ r c, cell (readGrid (solveSudokuH H g size).1 g) r c
      = cell (readGrid H g) r c) := by
  obtain ⟨dc1, dc2, dc3, dc4, dc5, dc6⟩ := deepCopy_spec g H hval
  have hval2 : ∀ x ∈ (deepCopy H g).2, x < (deepCopy H g).1.rows.length := by
    intro x hx
    have := dc3 x hx
    omega
  have hglen2 : (deepCopy H g).2.length = size := by rw [dc5, hglen]
  obtain ⟨s1, s2, s3, s4⟩ := solveH_sim dc4 hglen2 (size * size + 1)
    (deepCopy H g).1 hval2
  have h1 : (solveSudokuH H g size).1
      = (solveH size (deepCopy H g).2 (size * size + 1) (deepCopy H g).1).1 := by
    cases hfl : (solveH size (deepCopy H g).2 (size * size + 1)
        (deepCopy H g).1).2 with
    | true =>
      simp only [solveSudokuH, hfl]
      rfl
    | false =>
      simp only [solveSudokuH, hfl]
      rfl
  have hframe : ∀ a, a < H.rows.length →
      hread (solveSudokuH H g size).1 a = hread H a := by
    intro a ha
    have hnotin : a ∉ (deepCopy H g).2 := by
      intro hmem
      have := dc3 a hmem
      omega
    rw [h1, s2 a hnotin, dc2 a ha]
  have hgrid : readGrid (solveSudokuH H g size).1 g = readGrid H g := by
    unfold readGrid
    apply List.map_congr_left
    intro a ha
    exact hframe a (hval a ha)
  exact ⟨hframe, hgrid, fun r c => by rw [hgrid]⟩

/-- C7, witness: a concrete call on a 6×6 board stored in a heap; the rows
of the caller read unchanged afterwards. -/
theorem claim7_witness :
    readGrid (solveSudokuH
        ⟨[[0,2,3,4,5,6], [4,5,6,1,2,3], [2,1,4,3,6,5],
          [3,6,5,2,1,4], [5,3,1,6,4,2], [6,4,2,5,3,1]]⟩
        [0, 1, 2, 3, 4, 5] 6).1 [0, 1, 2, 3, 4, 5]
      = readGrid
        ⟨[[0,2,3,4,5,6], [4,5,6,1,2,3], [2,1,4,3,6,5],
          [3,6,5,2,1,4], [5,3,1,6,4,2], [6,4,2,5,3,1]]⟩
        [0, 1, 2, 3, 4, 5] :=
  (claim7_no_mutation _ _ (by decide) (by decide)).2.1

end Sudoku
